import Mathlib

set_option maxRecDepth 1000000

/-!
Shallow embedding of the viewport positioning and input-fusion core of
`script.js` (the "context-binoculars" binocular viewer).

JavaScript numbers are modelled by the exact rational type `Q` below (every
numeric literal in the source is a decimal rational, and the claims under
study are about exact arithmetic relations); `Q` is a kernel-computable
fraction type so that concrete runs of the model can be settled by `decide`.
A separate extended-number model `JSNum` with signed infinities and a NaN is
used for the non-finite-safety claim, where IEEE special values are the
point; and the keyboard delta computation, whose diagonal branch multiplies
by the irrational `1/Math.sqrt(2)`, is modelled over `ℝ`.

The mutable global `AppState` (its `viewport`, `input`, `keyboard` and
`container` sub-records) together with the `ViewportController` instance
fields (`cachedBounds`, `lastContainerSize`) are flattened into one record
`AppState`.  Event handlers become state transformers; the render-only
global `updateViewportPosition` (which writes CSS variables and never
touches `AppState.viewport.x/y`) is omitted, as are throttling/debouncing
wrappers (we model the handler bodies, i.e. the samples that actually get
processed).
-/

/-- Exact rationals as integer fractions, with all operations reducible by
the kernel.  The `norm` smart constructor keeps denominators positive and in
lowest terms, so values built by the arithmetic below are canonical. -/
structure Q where
  num : Int
  den : Int
deriving DecidableEq, Repr

namespace Q

/-- Normalize a fraction: positive denominator, lowest terms.  A zero
denominator never arises from the operations below; it is mapped to `0`. -/
def norm (n d : Int) : Q :=
  if d = 0 then ⟨0, 1⟩
  else
    let s : Int := if d < 0 then -1 else 1
    let n' := s * n
    let d' := s * d
    let g : Int := (n'.natAbs.gcd d'.natAbs : Nat)
    if g = 0 then ⟨0, 1⟩ else ⟨n' / g, d' / g⟩

def add (a b : Q) : Q := norm (a.num * b.den + b.num * a.den) (a.den * b.den)
def sub (a b : Q) : Q := norm (a.num * b.den - b.num * a.den) (a.den * b.den)
def mul (a b : Q) : Q := norm (a.num * b.num) (a.den * b.den)

/-- Division; division by (numeric) zero is given the junk value `0` here.
(JavaScript would produce an infinity: the `JSNum` model below treats that
case honestly; the claims settled over `Q` never divide by zero.) -/
def div (a b : Q) : Q := if b.num = 0 then ⟨0, 1⟩ else norm (a.num * b.den) (a.den * b.num)

def neg (a : Q) : Q := ⟨-a.num, a.den⟩

instance : Add Q := ⟨add⟩
instance : Sub Q := ⟨sub⟩
instance : Mul Q := ⟨mul⟩
instance : Div Q := ⟨div⟩
instance : Neg Q := ⟨neg⟩
instance (n : Nat) : OfNat Q n := ⟨⟨n, 1⟩⟩
instance : OfScientific Q :=
  ⟨fun m b e => if b then norm m ((10 : Int) ^ e) else norm (m * (10 : Int) ^ e) 1⟩

/-- Value ordering, stated so that it is correct for any sign of the stored
denominators (multiply through by the squares of the denominators). -/
def le (a b : Q) : Prop :=
  a.num * a.den * (b.den * b.den) ≤ b.num * b.den * (a.den * a.den)

def lt (a b : Q) : Prop :=
  a.num * a.den * (b.den * b.den) < b.num * b.den * (a.den * a.den)

instance decLe (a b : Q) : Decidable (le a b) := by unfold le; infer_instance
instance decLt (a b : Q) : Decidable (lt a b) := by unfold lt; infer_instance
instance : LE Q := ⟨le⟩
instance : LT Q := ⟨lt⟩
instance (a b : Q) : Decidable (a ≤ b) := decLe a b
instance (a b : Q) : Decidable (a < b) := decLt a b

/-- Numeric equality (JS `===` on numbers), independent of representation. -/
def eqv (a b : Q) : Prop := a.num * b.den = b.num * a.den

instance decEqv (a b : Q) : Decidable (eqv a b) := by unfold eqv; infer_instance

/-- `Math.max` on (non-NaN) numbers. -/
def max (a b : Q) : Q := if lt a b then b else a

/-- `Math.min` on (non-NaN) numbers. -/
def min (a b : Q) : Q := if lt b a then b else a

/-- The real number a fraction denotes. -/
noncomputable def toReal (a : Q) : ℝ := (a.num : ℝ) / (a.den : ℝ)

/-- The rational number a fraction denotes (`0` when the denominator is `0`,
a case the model's arithmetic never produces). -/
noncomputable def toRat (a : Q) : ℚ := (a.num : ℚ) / (a.den : ℚ)

end Q

/-- The navigation keys recognised by `handleKeyDown` (arrow keys and WASD). -/
inductive Key where
  | arrowup | arrowdown | arrowleft | arrowright
  | w | a | s | d
deriving DecidableEq, Repr

/-- The allowed normalized-position rectangle (`cachedBounds` in the source). -/
structure Bounds where
  minX : Q
  maxX : Q
  minY : Q
  maxY : Q
deriving DecidableEq, Repr

/-- The cache-miss branch of `ViewportController.applyBoundaryConstraints`:
`radiusX = radius / width`, `radiusY = radius / height`, dynamic padding
`0.01` when `width < 768` else `0.02` (= `this.boundaryPadding`), then
`minX = radiusX + padding`, `maxX = 1 - radiusX - padding`, same for Y. -/
def computeBounds (width height radius : Q) : Bounds :=
  let radiusX := radius / width
  let radiusY := radius / height
  let dynamicPadding : Q := if width < 768 then 0.01 else 0.02
  { minX := radiusX + dynamicPadding
    maxX := 1 - radiusX - dynamicPadding
    minY := radiusY + dynamicPadding
    maxY := 1 - radiusY - dynamicPadding }

/-- Flattened application state: `AppState.viewport` (`x`, `y`, `radius`),
`AppState.container` (`width`, `height`), `AppState.input` (`touchActive`,
`keyboardActive`, `isMouseActive`, `keysPressed`), `AppState.keyboard.isMoving`,
`AppState.isLoaded`, plus the `ViewportController` cache fields
(`cachedBounds`, `lastContainerSize.width/height` as `lastW`/`lastH`). -/
structure AppState where
  x : Q
  y : Q
  radius : Q
  width : Q
  height : Q
  touchActive : Bool
  keyboardActive : Bool
  isMouseActive : Bool
  keysPressed : List Key
  isMoving : Bool
  isLoaded : Bool
  cachedBounds : Option Bounds
  lastW : Q
  lastH : Q
deriving DecidableEq, Repr

/-- `ViewportController.applyBoundaryConstraints`: recompute and store the
bounds when there is no cache or the container size changed (the check
compares only `lastContainerSize` with `AppState.container` using `!==`, it
does not involve the radius), then clamp `x`/`y` with
`Math.max(min, Math.min(max, ·))` against the (possibly cached) bounds.
Returns the updated controller state and the constrained pair. -/
def applyBoundaryConstraints (st : AppState) (x y : Q) : AppState × Q × Q :=
  let st' :=
    if st.cachedBounds = none ∨ ¬ Q.eqv st.lastW st.width ∨ ¬ Q.eqv st.lastH st.height then
      { st with cachedBounds := some (computeBounds st.width st.height st.radius),
                lastW := st.width, lastH := st.height }
    else st
  let b := st'.cachedBounds.getD (computeBounds st'.width st'.height st'.radius)
  (st', Q.max b.minX (Q.min b.maxX x), Q.max b.minY (Q.min b.maxY y))

/-- `ViewportController.mouseToViewportPosition`: normalize client coordinates
by the container size, then apply boundary constraints. -/
def mouseToViewportPosition (st : AppState) (clientX clientY : Q) :
    AppState × Q × Q :=
  applyBoundaryConstraints st (clientX / st.width) (clientY / st.height)

/-- `ViewportController.updateViewportPosition`: clamp the target, then either
smooth (`state += (clampedTarget - state) * α`, with `α = 0.4` when
`input.touchActive` else `0.15`) or set the position directly. -/
def updateViewportPosition (st : AppState) (targetX targetY : Q)
    (smooth : Bool) : AppState :=
  let r := applyBoundaryConstraints st targetX targetY
  let st' := r.1
  let cx := r.2.1
  let cy := r.2.2
  if smooth then
    let smoothing : Q := if st'.touchActive then 0.4 else 0.15
    { st' with x := st'.x + (cx - st'.x) * smoothing
               y := st'.y + (cy - st'.y) * smoothing }
  else
    { st' with x := cx, y := cy }

/-- `ViewportController.moveViewportByDelta`: add the deltas and clamp, direct
set (keyboard navigation path, no smoothing). -/
def moveViewportByDelta (st : AppState) (deltaX deltaY : Q) : AppState :=
  let r := applyBoundaryConstraints st (st.x + deltaX) (st.y + deltaY)
  { r.1 with x := r.2.1, y := r.2.2 }

/-- `ViewportController.getKeyboardMoveSpeed` as a function of the container
width: `0.003` when width < 480, `0.0025` when width < 768, else `0.002`. -/
def getKeyboardMoveSpeed (width : Q) : Q :=
  if width < 480 then 0.003
  else if width < 768 then 0.0025
  else 0.002

/-- `ResponsiveManager.getOptimalViewportRadius` followed by the aspect-ratio
correction and `[60,200]` clamp of `calculateViewportRadius`, with the device
type recomputed from the current dimensions (as `updateResponsiveState` does
before `calculateViewportRadius` on every resize path). -/
def calculateViewportRadius (width height : Q) : Q :=
  let minDimension := Q.min width height
  let baseRadius :=
    if minDimension < 480 then Q.min 80 (minDimension * 0.15)
    else if minDimension < 768 then Q.min 100 (minDimension * 0.18)
    else if minDimension < 1024 then Q.min 140 (minDimension * 0.2)
    else Q.min 180 (minDimension * 0.15)
  let maxDimension := Q.max width height
  let aspectRatio := maxDimension / minDimension
  let baseRadius :=
    if (2.5 : Q) < aspectRatio then baseRadius * 0.75
    else if (2 : Q) < aspectRatio then baseRadius * 0.85
    else baseRadius
  Q.max 60 (Q.min 200 baseRadius)

/-- `handleMouseMove` (body of the throttled handler): bail out when not
loaded; set `isMouseActive`, clear `keyboardActive`; convert the client
position and update with smoothing.  It does not touch
`keyboard.isMoving` or `keysPressed`. -/
def handleMouseMove (st : AppState) (clientX clientY : Q) : AppState :=
  if st.isLoaded then
    let st := { st with isMouseActive := true, keyboardActive := false }
    let r := mouseToViewportPosition st clientX clientY
    updateViewportPosition r.1 r.2.1 r.2.2 true
  else st

/-- `handleTouchStart`: set `touchActive`, clear the other two flags, and
update the position immediately with `smooth = false` (direct set). -/
def handleTouchStart (st : AppState) (clientX clientY : Q) : AppState :=
  if st.isLoaded then
    let st := { st with touchActive := true, isMouseActive := false,
                        keyboardActive := false }
    let r := mouseToViewportPosition st clientX clientY
    updateViewportPosition r.1 r.2.1 r.2.2 false
  else st

/-- `handleTouchMove` (body of the throttled handler): only acts when loaded
and `touchActive`; updates with smoothing (so with `α = 0.4`). -/
def handleTouchMove (st : AppState) (clientX clientY : Q) : AppState :=
  if st.isLoaded && st.touchActive then
    let r := mouseToViewportPosition st clientX clientY
    updateViewportPosition r.1 r.2.1 r.2.2 true
  else st

/-- The delayed branch of `handleTouchEnd` when no touches remain: clear
`touchActive`. -/
def handleTouchEnd (st : AppState) : AppState :=
  if st.isLoaded then { st with touchActive := false } else st

/-- JS `Set.add`: append only when absent. -/
def insertKey (k : Key) (ks : List Key) : List Key :=
  if k ∈ ks then ks else ks ++ [k]

/-- `handleKeyDown` for a navigation key (our `Key` type contains exactly the
keys of `navigationKeys`): add to `keysPressed`, set `keyboardActive`, clear
`isMouseActive`, and start the movement loop when it is not running
(`startKeyboardMovement` sets `keyboard.isMoving = true`). -/
def handleKeyDown (st : AppState) (k : Key) : AppState :=
  if st.isLoaded then
    let st := { st with keysPressed := insertKey k st.keysPressed,
                        keyboardActive := true, isMouseActive := false }
    if st.isMoving then st else { st with isMoving := true }
  else st

/-- `handleKeyUp`: remove the key; when the pressed set empties, stop the
loop (`stopKeyboardMovement` clears `keyboard.isMoving`). -/
def handleKeyUp (st : AppState) (k : Key) : AppState :=
  if st.isLoaded then
    let ks := st.keysPressed.erase k
    let st := { st with keysPressed := ks }
    if ks = [] then { st with isMoving := false } else st
  else st

/-- One iteration of the `moveLoop` in `startKeyboardMovement`, with the
already-computed movement deltas passed in.  (The deltas the source computes
from the held keys and the frame time involve the irrational factor
`1/Math.sqrt(2)` on the diagonal, so their computation is modelled separately
over `ℝ` as `keyboardDelta`; every value that computation can produce is one
particular pair of numbers, so quantifying over the `deltaX`/`deltaY` passed
here covers all of them.)  The loop body: exit (clearing `isMoving`) when the
loop was stopped or no key is held; otherwise call `moveViewportByDelta`
when some delta is nonzero, and reschedule. -/
def moveLoop (st : AppState) (deltaX deltaY : Q) : AppState :=
  if st.isMoving = false ∨ st.keysPressed = [] then
    { st with isMoving := false }
  else if deltaX ≠ 0 ∨ deltaY ≠ 0 then
    moveViewportByDelta st deltaX deltaY
  else st

/-- The condition under which the `moveLoop` keeps rescheduling itself (the
negation of its exit test). -/
def loopActive (st : AppState) : Bool :=
  st.isMoving && !st.keysPressed.isEmpty

/-- `handleResize` (debounced body): `updateContainerDimensions`, then when
loaded recompute the radius via `calculateViewportRadius`; the final
`updateViewportPosition()` call is the render-only global function, which
does not modify `viewport.x`/`viewport.y` and performs no re-clamping. -/
def handleResize (st : AppState) (w h : Q) : AppState :=
  let st := { st with width := w, height := h }
  if st.isLoaded then { st with radius := calculateViewportRadius w h } else st

/-- `setViewportPosition` (global helper): clamp each coordinate into `[0,1]`
(`Math.max(0, Math.min(1, ·))`) and store it directly. -/
def setViewportPosition (st : AppState) (normalizedX normalizedY : Q) :
    AppState :=
  { st with x := Q.max 0 (Q.min 1 normalizedX), y := Q.max 0 (Q.min 1 normalizedY) }

/-- The state after `updateContainerDimensions` + `initializeViewport` on a
`w × h` window: center position, computed radius, loaded, empty input state,
cold boundary cache (`AppState` literal defaults). -/
def initialState (w h : Q) : AppState :=
  { x := 0.5, y := 0.5, radius := calculateViewportRadius w h,
    width := w, height := h,
    touchActive := false, keyboardActive := false, isMouseActive := false,
    keysPressed := [], isMoving := false, isLoaded := true,
    cachedBounds := none, lastW := 0, lastH := 0 }

/-- The externally observable events the core processes. -/
inductive Ev where
  | mouseMove (clientX clientY : Q)
  | touchStart (clientX clientY : Q)
  | touchMove (clientX clientY : Q)
  | touchEnd
  | keyDown (k : Key)
  | keyUp (k : Key)
  | keyTick (deltaX deltaY : Q)
  | resize (w h : Q)
deriving DecidableEq, Repr

/-- Dispatch one event to its handler. -/
def step (st : AppState) : Ev → AppState
  | .mouseMove cx cy => handleMouseMove st cx cy
  | .touchStart cx cy => handleTouchStart st cx cy
  | .touchMove cx cy => handleTouchMove st cx cy
  | .touchEnd => handleTouchEnd st
  | .keyDown k => handleKeyDown st k
  | .keyUp k => handleKeyUp st k
  | .keyTick dx dy => moveLoop st dx dy
  | .resize w h => handleResize st w h

/-- Run a sequence of events from the initialized state. -/
def run (w h : Q) (evs : List Ev) : AppState :=
  evs.foldl step (initialState w h)

/-- The position lies inside the rectangle derived from the current
(post-resize) container size and radius. -/
def inBounds (st : AppState) : Prop :=
  let b := computeBounds st.width st.height st.radius
  b.minX ≤ st.x ∧ st.x ≤ b.maxX ∧ b.minY ≤ st.y ∧ st.y ≤ b.maxY

instance (st : AppState) : Decidable (inBounds st) := by
  unfold inBounds; infer_instance

/-- The boundary cache, if it will be used (keys match), holds exactly the
bounds recomputed from first principles at the current configuration. -/
def cacheFresh (st : AppState) : Prop :=
  st.cachedBounds = none ∨ ¬ Q.eqv st.lastW st.width ∨ ¬ Q.eqv st.lastH st.height ∨
    st.cachedBounds = some (computeBounds st.width st.height st.radius)

instance (st : AppState) : Decidable (cacheFresh st) := by
  unfold cacheFresh; infer_instance

/-- The bounds recomputed from first principles at the state's current
configuration (the pure BoundaryCalculator of the specification). -/
def boundsOf (st : AppState) : Bounds :=
  computeBounds st.width st.height st.radius

/-- The X-axis clamp `Math.max(minX, Math.min(maxX, v))`. -/
def clampX (b : Bounds) (v : Q) : Q := Q.max b.minX (Q.min b.maxX v)

/-- The Y-axis clamp `Math.max(minY, Math.min(maxY, v))`. -/
def clampY (b : Bounds) (v : Q) : Q := Q.max b.minY (Q.min b.maxY v)

/-- Non-degenerate rectangle at the state's current configuration. -/
def nondeg (st : AppState) : Prop :=
  Q.le (boundsOf st).minX (boundsOf st).maxX ∧
  Q.le (boundsOf st).minY (boundsOf st).maxY

instance (st : AppState) : Decidable (nondeg st) := by
  unfold nondeg; exact instDecidableAnd

/-- Events other than resize. -/
def Ev.isInput : Ev → Bool
  | .resize _ _ => false
  | _ => true

/-- The delta computation of one `moveLoop` iteration in
`startKeyboardMovement`: `frameMultiplier = deltaTime / 16.67`,
`moveSpeed = getKeyboardMoveSpeed() * frameMultiplier`, `deltaX/Y` from the
held keys (arrow keys or WASD), and the `1/Math.sqrt(2)` normalization when
an X and a Y direction are both active.  Over `ℝ` because `√2` is
irrational. -/
noncomputable def keyboardDelta (keysPressed : List Key) (width deltaTime : Q) :
    ℝ × ℝ :=
  let frameMultiplier : ℝ := deltaTime.toReal / 16.67
  let baseSpeed : ℝ := (getKeyboardMoveSpeed width).toReal
  let moveSpeed : ℝ := baseSpeed * frameMultiplier
  let leftPressed := keysPressed.contains Key.arrowleft || keysPressed.contains Key.a
  let rightPressed := keysPressed.contains Key.arrowright || keysPressed.contains Key.d
  let upPressed := keysPressed.contains Key.arrowup || keysPressed.contains Key.w
  let downPressed := keysPressed.contains Key.arrowdown || keysPressed.contains Key.s
  let deltaX : ℝ := (if leftPressed then -moveSpeed else 0) +
    (if rightPressed then moveSpeed else 0)
  let deltaY : ℝ := (if upPressed then -moveSpeed else 0) +
    (if downPressed then moveSpeed else 0)
  if (leftPressed || rightPressed) && (upPressed || downPressed) then
    let diagonalFactor : ℝ := 1 / Real.sqrt 2
    (deltaX * diagonalFactor, deltaY * diagonalFactor)
  else
    (deltaX, deltaY)

/-- Euclidean magnitude of a displacement. -/
noncomputable def deltaMagnitude (d : ℝ × ℝ) : ℝ :=
  Real.sqrt (d.1 ^ 2 + d.2 ^ 2)

inductive JSNum where
  | num (val : Q)
  | posInf
  | negInf
  | nan
deriving DecidableEq, Repr

def JSNum.isFinite : JSNum → Bool
  | .num _ => true
  | _ => false

def jneg : JSNum → JSNum
  | .num a => .num (-a)
  | .posInf => .negInf
  | .negInf => .posInf
  | .nan => .nan

def jadd : JSNum → JSNum → JSNum
  | .nan, _ => .nan
  | _, .nan => .nan
  | .num a, .num b => .num (a + b)
  | .num _, .posInf => .posInf
  | .num _, .negInf => .negInf
  | .posInf, .num _ => .posInf
  | .posInf, .posInf => .posInf
  | .posInf, .negInf => .nan
  | .negInf, .num _ => .negInf
  | .negInf, .negInf => .negInf
  | .negInf, .posInf => .nan

def jsub (a b : JSNum) : JSNum := jadd a (jneg b)

def jmul : JSNum → JSNum → JSNum
  | .nan, _ => .nan
  | _, .nan => .nan
  | .num a, .num b => .num (a * b)
  | .num a, .posInf => if Q.lt 0 a then .posInf else if Q.lt a 0 then .negInf else .nan
  | .num a, .negInf => if Q.lt 0 a then .negInf else if Q.lt a 0 then .posInf else .nan
  | .posInf, .num b => if Q.lt 0 b then .posInf else if Q.lt b 0 then .negInf else .nan
  | .negInf, .num b => if Q.lt 0 b then .negInf else if Q.lt b 0 then .posInf else .nan
  | .posInf, .posInf => .posInf
  | .posInf, .negInf => .negInf
  | .negInf, .posInf => .negInf
  | .negInf, .negInf => .posInf

def jdiv : JSNum → JSNum → JSNum
  | .nan, _ => .nan
  | _, .nan => .nan
  | .num a, .num b =>
      if Q.eqv b 0 then
        if Q.lt 0 a then .posInf else if Q.lt a 0 then .negInf else .nan
      else .num (a / b)
  | .num _, .posInf => .num 0
  | .num _, .negInf => .num 0
  | .posInf, .num b => if Q.lt b 0 then .negInf else .posInf
  | .negInf, .num b => if Q.lt b 0 then .posInf else .negInf
  | .posInf, _ => .nan
  | .negInf, _ => .nan

def jmax : JSNum → JSNum → JSNum
  | .nan, _ => .nan
  | _, .nan => .nan
  | .num a, .num b => .num (Q.max a b)
  | .posInf, _ => .posInf
  | _, .posInf => .posInf
  | .negInf, b => b
  | a, .negInf => a

def jmin : JSNum → JSNum → JSNum
  | .nan, _ => .nan
  | _, .nan => .nan
  | .num a, .num b => .num (Q.min a b)
  | .negInf, _ => .negInf
  | _, .negInf => .negInf
  | .posInf, b => b
  | a, .posInf => a

def jltb : JSNum → JSNum → Bool
  | .nan, _ => false
  | _, .nan => false
  | .num a, .num b => decide (Q.lt a b)
  | .num _, .posInf => true
  | .num _, .negInf => false
  | .posInf, _ => false
  | .negInf, .negInf => false
  | .negInf, _ => true

/-- JS `!==` on numbers (`NaN !== NaN` is true). -/
def jneqb : JSNum → JSNum → Bool
  | .nan, _ => true
  | _, .nan => true
  | .num a, .num b => !(decide (Q.eqv a b))
  | .posInf, .posInf => false
  | .negInf, .negInf => false
  | _, _ => true

/-- The allowed rectangle over `JSNum`. -/
structure JBounds where
  minX : JSNum
  maxX : JSNum
  minY : JSNum
  maxY : JSNum
deriving DecidableEq, Repr

/-- The state fields the numeric pipeline reads and writes, over `JSNum`
(activity flags that do not influence the arithmetic are kept as in the
main model). -/
structure JState where
  x : JSNum
  y : JSNum
  radius : JSNum
  width : JSNum
  height : JSNum
  touchActive : Bool
  isMouseActive : Bool
  keyboardActive : Bool
  isLoaded : Bool
  cachedBounds : Option JBounds
  lastW : JSNum
  lastH : JSNum
deriving DecidableEq, Repr

/-- The cache-miss bounds computation over `JSNum` (same code as
`computeBounds`, with JS arithmetic). -/
def computeBoundsJ (width height radius : JSNum) : JBounds :=
  let radiusX := jdiv radius width
  let radiusY := jdiv radius height
  let dynamicPadding : JSNum := if jltb width (.num 768) then .num 0.01 else .num 0.02
  { minX := jadd radiusX dynamicPadding
    maxX := jsub (jsub (.num 1) radiusX) dynamicPadding
    minY := jadd radiusY dynamicPadding
    maxY := jsub (jsub (.num 1) radiusY) dynamicPadding }

/-- `applyBoundaryConstraints` over `JSNum` (cache check via JS `!==`). -/
def applyBoundaryConstraintsJ (st : JState) (x y : JSNum) : JState × JSNum × JSNum :=
  let st' :=
    if st.cachedBounds = none ∨ jneqb st.lastW st.width = true ∨
        jneqb st.lastH st.height = true then
      { st with cachedBounds := some (computeBoundsJ st.width st.height st.radius),
                lastW := st.width, lastH := st.height }
    else st
  let b := st'.cachedBounds.getD (computeBoundsJ st'.width st'.height st'.radius)
  (st', jmax b.minX (jmin b.maxX x), jmax b.minY (jmin b.maxY y))

/-- `mouseToViewportPosition` over `JSNum` (client coordinates are finite,
as delivered by the event layer). -/
def mouseToViewportPositionJ (st : JState) (clientX clientY : Q) :
    JState × JSNum × JSNum :=
  applyBoundaryConstraintsJ st (jdiv (.num clientX) st.width)
    (jdiv (.num clientY) st.height)

/-- `ViewportController.updateViewportPosition` over `JSNum`. -/
def updateViewportPositionJ (st : JState) (targetX targetY : JSNum)
    (smooth : Bool) : JState :=
  let r := applyBoundaryConstraintsJ st targetX targetY
  if smooth then
    let smoothing : JSNum := if r.1.touchActive then .num 0.4 else .num 0.15
    { r.1 with x := jadd r.1.x (jmul (jsub r.2.1 r.1.x) smoothing)
               y := jadd r.1.y (jmul (jsub r.2.2 r.1.y) smoothing) }
  else
    { r.1 with x := r.2.1, y := r.2.2 }

/-- `moveViewportByDelta` over `JSNum`. -/
def moveViewportByDeltaJ (st : JState) (deltaX deltaY : JSNum) : JState :=
  let r := applyBoundaryConstraintsJ st (jadd st.x deltaX) (jadd st.y deltaY)
  { r.1 with x := r.2.1, y := r.2.2 }

/-- `handleMouseMove` over `JSNum`. -/
def handleMouseMoveJ (st : JState) (clientX clientY : Q) : JState :=
  if st.isLoaded then
    let st := { st with isMouseActive := true, keyboardActive := false }
    let r := mouseToViewportPositionJ st clientX clientY
    updateViewportPositionJ r.1 r.2.1 r.2.2 true
  else st

/-- `handleTouchStart` over `JSNum`. -/
def handleTouchStartJ (st : JState) (clientX clientY : Q) : JState :=
  if st.isLoaded then
    let st := { st with touchActive := true, isMouseActive := false,
                        keyboardActive := false }
    let r := mouseToViewportPositionJ st clientX clientY
    updateViewportPositionJ r.1 r.2.1 r.2.2 false
  else st

/-- `handleTouchMove` over `JSNum`. -/
def handleTouchMoveJ (st : JState) (clientX clientY : Q) : JState :=
  if st.isLoaded && st.touchActive then
    let r := mouseToViewportPositionJ st clientX clientY
    updateViewportPositionJ r.1 r.2.1 r.2.2 true
  else st

/-- A loaded state on a zero-width container (as `updateContainerDimensions`
would produce for a zero-sized window), with the default radius 150 and
centred position. -/
def jZeroWidthState : JState :=
  { x := .num 0.5, y := .num 0.5, radius := .num 150,
    width := .num 0, height := .num 400,
    touchActive := false, isMouseActive := false, keyboardActive := false,
    isLoaded := true, cachedBounds := none, lastW := .num 0, lastH := .num 0 }

/-- The finite-state invariant the C3 analysis tracks: finite position,
radius and container, nonzero finite container, cache empty or finite. -/
def finiteCfg (st : JState) (wq hq rq xq yq : Q) : Prop :=
  st.width = .num wq ∧ ¬ Q.eqv wq 0 ∧
  st.height = .num hq ∧ ¬ Q.eqv hq 0 ∧
  st.radius = .num rq ∧ st.x = .num xq ∧ st.y = .num yq ∧
  (st.cachedBounds = none ∨
    ∃ b1 b2 b3 b4 : Q, st.cachedBounds = some ⟨.num b1, .num b2, .num b3, .num b4⟩)

/-- C3 witness: a negative-width (−100 × 400) container keeps the state
finite through a pointer update. -/
def jNegWidthState : JState :=
  { jZeroWidthState with width := .num (-100), lastW := .num (-100) }

/-! ### Lemmas: the denotation of `Q`, order transfer, and the claims -/

namespace Q

theorem norm_core (n d s : Int) (hs : s = -1 ∨ s = 1) (hD : 0 < s * d) (hd : d ≠ 0) :
    0 < ((⟨s * n / ((s * n).natAbs.gcd (s * d).natAbs : Nat),
           s * d / ((s * n).natAbs.gcd (s * d).natAbs : Nat)⟩ : Q)).den ∧
    ((⟨s * n / ((s * n).natAbs.gcd (s * d).natAbs : Nat),
       s * d / ((s * n).natAbs.gcd (s * d).natAbs : Nat)⟩ : Q)).toRat = (n : ℚ) / d := by
  have hDne : s * d ≠ 0 := ne_of_gt hD
  set G : Int := (((s * n).natAbs.gcd (s * d).natAbs : Nat) : Int) with hG
  have hGpos : 0 < G := by
    have h1 : (s * d).natAbs ≠ 0 := Int.natAbs_ne_zero.mpr hDne
    have h2 := Nat.gcd_pos_of_pos_right (s * n).natAbs (Nat.pos_of_ne_zero h1)
    rw [hG]
    exact_mod_cast h2
  have hGne : G ≠ 0 := ne_of_gt hGpos
  have hgN : G ∣ s * n := by
    have h1 : ((s * n).natAbs.gcd (s * d).natAbs : Int) ∣ ((s * n).natAbs : Int) :=
      Int.natCast_dvd_natCast.mpr (Nat.gcd_dvd_left _ _)
    exact hG ▸ h1.trans (Int.natAbs_dvd.mpr dvd_rfl)
  have hgD : G ∣ s * d := by
    have h1 : ((s * n).natAbs.gcd (s * d).natAbs : Int) ∣ ((s * d).natAbs : Int) :=
      Int.natCast_dvd_natCast.mpr (Nat.gcd_dvd_right _ _)
    exact hG ▸ h1.trans (Int.natAbs_dvd.mpr dvd_rfl)
  obtain ⟨n1, hn1⟩ := hgN
  obtain ⟨d1, hd1⟩ := hgD
  have hdiv1 : s * n / G = n1 := by rw [hn1, Int.mul_ediv_cancel_left _ hGne]
  have hdiv2 : s * d / G = d1 := by rw [hd1, Int.mul_ediv_cancel_left _ hGne]
  have hd1pos : 0 < d1 := by
    by_contra h
    push_neg at h
    have : G * d1 ≤ 0 := mul_nonpos_of_nonneg_of_nonpos (le_of_lt hGpos) h
    omega
  constructor
  · simpa [hdiv2]
  · simp only [toRat, hdiv1, hdiv2]
    have hss : s * s = 1 := by rcases hs with h | h <;> simp [h]
    have hn : n = s * G * n1 := by
      have : s * (s * n) = s * (G * n1) := by rw [hn1]
      calc n = s * s * n := by rw [hss]; ring
      _ = s * G * n1 := by rw [mul_assoc, this]; ring
    have hdd : d = s * G * d1 := by
      have : s * (s * d) = s * (G * d1) := by rw [hd1]
      calc d = s * s * d := by rw [hss]; ring
      _ = s * G * d1 := by rw [mul_assoc, this]; ring
    have hd1ne : (d1 : ℚ) ≠ 0 := Int.cast_ne_zero.mpr (ne_of_gt hd1pos)
    have hdne : (d : ℚ) ≠ 0 := Int.cast_ne_zero.mpr hd
    rw [div_eq_div_iff hd1ne hdne, hn, hdd]
    push_cast
    ring

theorem norm_spec (n d : Int) (hd : d ≠ 0) :
    0 < (norm n d).den ∧ (norm n d).toRat = (n : ℚ) / d := by
  unfold norm
  rw [if_neg hd]
  rcases hd.lt_or_lt with hdn | hdp
  · have hs : (if d < 0 then (-1 : Int) else 1) = -1 := if_pos hdn
    simp only [hs]
    have hD : (0 : ℤ) < -1 * d := by omega
    have hGne : (((-1 * n).natAbs.gcd ((-1) * d).natAbs : Nat) : Int) ≠ 0 := by
      have h1 : ((-1) * d).natAbs ≠ 0 := Int.natAbs_ne_zero.mpr (ne_of_gt hD)
      have := Nat.gcd_pos_of_pos_right ((-1) * n).natAbs (Nat.pos_of_ne_zero h1)
      omega
    rw [if_neg hGne]
    exact norm_core n d (-1) (Or.inl rfl) hD hd
  · have hs : (if d < 0 then (-1 : Int) else 1) = 1 := if_neg (not_lt.mpr (le_of_lt hdp))
    simp only [hs]
    have hD : (0 : ℤ) < 1 * d := by omega
    have hGne : (((1 * n).natAbs.gcd (1 * d).natAbs : Nat) : Int) ≠ 0 := by
      have h1 : (1 * d).natAbs ≠ 0 := Int.natAbs_ne_zero.mpr (ne_of_gt hD)
      have := Nat.gcd_pos_of_pos_right (1 * n).natAbs (Nat.pos_of_ne_zero h1)
      omega
    rw [if_neg hGne]
    exact norm_core n d 1 (Or.inr rfl) hD hd

theorem norm_den_pos (n d : Int) : 0 < (norm n d).den := by
  by_cases hd : d = 0
  · simp [norm, hd]
  · exact (norm_spec n d hd).1

theorem toRat_norm (n d : Int) (hd : d ≠ 0) : (norm n d).toRat = (n : ℚ) / d :=
  (norm_spec n d hd).2

theorem toRat_add (a b : Q) (ha : a.den ≠ 0) (hb : b.den ≠ 0) :
    (a + b).toRat = a.toRat + b.toRat := by
  show (add a b).toRat = _
  unfold add
  rw [toRat_norm _ _ (mul_ne_zero ha hb), toRat, toRat]
  have ha' : (a.den : ℚ) ≠ 0 := Int.cast_ne_zero.mpr ha
  have hb' : (b.den : ℚ) ≠ 0 := Int.cast_ne_zero.mpr hb
  field_simp
  all_goals ring

theorem toRat_sub (a b : Q) (ha : a.den ≠ 0) (hb : b.den ≠ 0) :
    (a - b).toRat = a.toRat - b.toRat := by
  show (sub a b).toRat = _
  unfold sub
  rw [toRat_norm _ _ (mul_ne_zero ha hb), toRat, toRat]
  have ha' : (a.den : ℚ) ≠ 0 := Int.cast_ne_zero.mpr ha
  have hb' : (b.den : ℚ) ≠ 0 := Int.cast_ne_zero.mpr hb
  field_simp
  all_goals ring

theorem toRat_mul (a b : Q) (ha : a.den ≠ 0) (hb : b.den ≠ 0) :
    (a * b).toRat = a.toRat * b.toRat := by
  show (mul a b).toRat = _
  unfold mul
  rw [toRat_norm _ _ (mul_ne_zero ha hb), toRat, toRat]
  have ha' : (a.den : ℚ) ≠ 0 := Int.cast_ne_zero.mpr ha
  have hb' : (b.den : ℚ) ≠ 0 := Int.cast_ne_zero.mpr hb
  field_simp
  all_goals ring

theorem toRat_div (a b : Q) (ha : a.den ≠ 0) (hb : b.den ≠ 0) :
    (a / b).toRat = a.toRat / b.toRat := by
  show (div a b).toRat = _
  unfold div
  by_cases hbn : b.num = 0
  · rw [if_pos hbn]
    simp [toRat, hbn]
  · rw [if_neg hbn, toRat_norm _ _ (mul_ne_zero ha hbn), toRat, toRat]
    have ha' : (a.den : ℚ) ≠ 0 := Int.cast_ne_zero.mpr ha
    have hb' : (b.den : ℚ) ≠ 0 := Int.cast_ne_zero.mpr hb
    have hbn' : (b.num : ℚ) ≠ 0 := Int.cast_ne_zero.mpr hbn
    field_simp
    all_goals ring

theorem add_den_pos (a b : Q) : 0 < (a + b).den := norm_den_pos _ _
theorem sub_den_pos (a b : Q) : 0 < (a - b).den := norm_den_pos _ _
theorem mul_den_pos (a b : Q) : 0 < (a * b).den := norm_den_pos _ _
theorem div_den_pos (a b : Q) : 0 < (a / b).den := by
  show 0 < (div a b).den
  unfold div
  split
  · norm_num
  · exact norm_den_pos _ _

theorem le_iff (a b : Q) (ha : a.den ≠ 0) (hb : b.den ≠ 0) :
    a ≤ b ↔ a.toRat ≤ b.toRat := by
  show le a b ↔ _
  unfold le toRat
  have haQ : (a.den : ℚ) ≠ 0 := Int.cast_ne_zero.mpr ha
  have hbQ : (b.den : ℚ) ≠ 0 := Int.cast_ne_zero.mpr hb
  have ha' : (0:ℚ) < (a.den : ℚ) * a.den := mul_self_pos.mpr haQ
  have hb' : (0:ℚ) < (b.den : ℚ) * b.den := mul_self_pos.mpr hbQ
  have e1 : (a.num : ℚ) / a.den = ((a.num : ℚ) * a.den) / ((a.den : ℚ) * a.den) :=
    (mul_div_mul_right _ _ haQ).symm
  have e2 : (b.num : ℚ) / b.den = ((b.num : ℚ) * b.den) / ((b.den : ℚ) * b.den) :=
    (mul_div_mul_right _ _ hbQ).symm
  rw [e1, e2, div_le_div_iff ha' hb']
  rw [show ((a.num : ℚ) * a.den) * ((b.den : ℚ) * b.den) =
        ((a.num * a.den * (b.den * b.den) : ℤ) : ℚ) by push_cast; ring,
      show ((b.num : ℚ) * b.den) * ((a.den : ℚ) * a.den) =
        ((b.num * b.den * (a.den * a.den) : ℤ) : ℚ) by push_cast; ring]
  exact Int.cast_le.symm

theorem lt_iff (a b : Q) (ha : a.den ≠ 0) (hb : b.den ≠ 0) :
    a < b ↔ a.toRat < b.toRat := by
  show lt a b ↔ _
  unfold lt toRat
  have haQ : (a.den : ℚ) ≠ 0 := Int.cast_ne_zero.mpr ha
  have hbQ : (b.den : ℚ) ≠ 0 := Int.cast_ne_zero.mpr hb
  have ha' : (0:ℚ) < (a.den : ℚ) * a.den := mul_self_pos.mpr haQ
  have hb' : (0:ℚ) < (b.den : ℚ) * b.den := mul_self_pos.mpr hbQ
  have e1 : (a.num : ℚ) / a.den = ((a.num : ℚ) * a.den) / ((a.den : ℚ) * a.den) :=
    (mul_div_mul_right _ _ haQ).symm
  have e2 : (b.num : ℚ) / b.den = ((b.num : ℚ) * b.den) / ((b.den : ℚ) * b.den) :=
    (mul_div_mul_right _ _ hbQ).symm
  rw [e1, e2, div_lt_div_iff ha' hb']
  rw [show ((a.num : ℚ) * a.den) * ((b.den : ℚ) * b.den) =
        ((a.num * a.den * (b.den * b.den) : ℤ) : ℚ) by push_cast; ring,
      show ((b.num : ℚ) * b.den) * ((a.den : ℚ) * a.den) =
        ((b.num * b.den * (a.den * a.den) : ℤ) : ℚ) by push_cast; ring]
  exact Int.cast_lt.symm

theorem toRat_neg (a : Q) : (-a).toRat = -a.toRat := by
  show (neg a).toRat = _
  unfold neg toRat
  push_cast
  ring_nf

theorem toRat_max (a b : Q) (ha : a.den ≠ 0) (hb : b.den ≠ 0) :
    (Q.max a b).toRat = Max.max a.toRat b.toRat := by
  unfold max
  split
  · rename_i h
    rw [max_eq_right (le_of_lt ((lt_iff a b ha hb).mp h))]
  · rename_i h
    rw [max_eq_left]
    have := (lt_iff a b ha hb).not.mp h
    exact not_lt.mp this

theorem toRat_min (a b : Q) (ha : a.den ≠ 0) (hb : b.den ≠ 0) :
    (Q.min a b).toRat = Min.min a.toRat b.toRat := by
  unfold min
  split
  · rename_i h
    rw [min_eq_right (le_of_lt ((lt_iff b a hb ha).mp h))]
  · rename_i h
    rw [min_eq_left]
    have := (lt_iff b a hb ha).not.mp h
    exact not_lt.mp this

theorem max_den_ne_zero (a b : Q) (ha : a.den ≠ 0) (hb : b.den ≠ 0) :
    (Q.max a b).den ≠ 0 := by
  unfold max; split <;> assumption

theorem min_den_ne_zero (a b : Q) (ha : a.den ≠ 0) (hb : b.den ≠ 0) :
    (Q.min a b).den ≠ 0 := by
  unfold min; split <;> assumption

end Q

theorem Q.le_of_lt' {a b : Q} (h : Q.lt a b) : Q.le a b := le_of_lt h

theorem Q.le_refl' (a : Q) : Q.le a a := le_refl _

/-- The lower clamp bound is respected, unconditionally. -/
theorem clamp_ge (lo hi x : Q) : Q.le lo (Q.max lo (Q.min hi x)) := by
  unfold Q.max
  split
  · rename_i h
    exact Q.le_of_lt' h
  · exact Q.le_refl' lo

/-- The upper clamp bound is respected whenever the rectangle is
non-degenerate. -/
theorem clamp_le (lo hi x : Q) (h : Q.le lo hi) :
    Q.le (Q.max lo (Q.min hi x)) hi := by
  unfold Q.max Q.min
  by_cases h1 : Q.lt x hi
  · rw [if_pos h1]
    by_cases h2 : Q.lt lo x
    · rw [if_pos h2]
      exact Q.le_of_lt' h1
    · rw [if_neg h2]
      exact h
  · rw [if_neg h1]
    by_cases h2 : Q.lt lo hi
    · rw [if_pos h2]
      exact Q.le_refl' hi
    · rw [if_neg h2]
      exact h

/-- Clamping is idempotent on a non-degenerate rectangle. -/
theorem clamp_idem (lo hi x : Q) (h : Q.le lo hi) :
    Q.max lo (Q.min hi (Q.max lo (Q.min hi x))) = Q.max lo (Q.min hi x) := by
  unfold Q.max Q.min
  by_cases h1 : Q.lt x hi
  · rw [if_pos h1]
    by_cases h2 : Q.lt lo x
    · rw [if_pos h2, if_pos h1, if_pos h2]
    · rw [if_neg h2]
      by_cases h3 : Q.lt lo hi
      · rw [if_pos h3]
        split <;> rfl
      · rw [if_neg h3, if_neg h3]
  · rw [if_neg h1]
    by_cases h3 : Q.lt lo hi
    · rw [if_pos h3]
      have : ¬ Q.lt hi hi := lt_irrefl _
      rw [if_neg this, if_pos h3]
    · rw [if_neg h3, if_neg h3, if_neg h3]

/-- `applyBoundaryConstraints` never changes the viewport, container, input
or keyboard fields of the state — only the cache fields. -/
theorem applyBC_state (st : AppState) (x y : Q) :
    ((applyBoundaryConstraints st x y).1).x = st.x ∧
    ((applyBoundaryConstraints st x y).1).y = st.y ∧
    ((applyBoundaryConstraints st x y).1).radius = st.radius ∧
    ((applyBoundaryConstraints st x y).1).width = st.width ∧
    ((applyBoundaryConstraints st x y).1).height = st.height ∧
    ((applyBoundaryConstraints st x y).1).touchActive = st.touchActive ∧
    ((applyBoundaryConstraints st x y).1).keyboardActive = st.keyboardActive ∧
    ((applyBoundaryConstraints st x y).1).isMouseActive = st.isMouseActive ∧
    ((applyBoundaryConstraints st x y).1).keysPressed = st.keysPressed ∧
    ((applyBoundaryConstraints st x y).1).isMoving = st.isMoving ∧
    ((applyBoundaryConstraints st x y).1).isLoaded = st.isLoaded := by
  unfold applyBoundaryConstraints
  split <;> simp

/-- With a fresh cache, the constrained pair returned by
`applyBoundaryConstraints` is the clamp against the bounds recomputed from
first principles at the current configuration. -/
theorem applyBC_pos (st : AppState) (x y : Q) (h : cacheFresh st) :
    (applyBoundaryConstraints st x y).2.1 =
      Q.max (computeBounds st.width st.height st.radius).minX
        (Q.min (computeBounds st.width st.height st.radius).maxX x) ∧
    (applyBoundaryConstraints st x y).2.2 =
      Q.max (computeBounds st.width st.height st.radius).minY
        (Q.min (computeBounds st.width st.height st.radius).maxY y) := by
  unfold applyBoundaryConstraints
  split
  · simp
  · rename_i hcond
    push_neg at hcond
    obtain ⟨h1, h2, h3⟩ := hcond
    rcases h with h | h | h | h
    · exact absurd h h1
    · exact absurd h2 (by simpa using h)
    · exact absurd h3 (by simpa using h)
    · simp [h]

/-- With a fresh cache, the state returned by `applyBoundaryConstraints`
stores exactly the recomputed bounds, and stays fresh. -/
theorem applyBC_cache (st : AppState) (x y : Q) (h : cacheFresh st) :
    ((applyBoundaryConstraints st x y).1).cachedBounds =
      some (computeBounds st.width st.height st.radius) ∧
    cacheFresh ((applyBoundaryConstraints st x y).1) := by
  have hstate := applyBC_state st x y
  have hcb : ((applyBoundaryConstraints st x y).1).cachedBounds =
      some (computeBounds st.width st.height st.radius) := by
    unfold applyBoundaryConstraints
    split
    · simp
    · rename_i hcond
      push_neg at hcond
      obtain ⟨h1, h2, h3⟩ := hcond
      rcases h with h | h | h | h
      · exact absurd h h1
      · exact absurd h2 (by simpa using h)
      · exact absurd h3 (by simpa using h)
      · simpa using h
  refine ⟨hcb, ?_⟩
  right; right; right
  rw [hcb, hstate.2.2.1, hstate.2.2.2.1, hstate.2.2.2.2.1]

/-- All four components of recomputed bounds have nonzero (positive)
denominators: they are produced by the normalizing arithmetic. -/
theorem computeBounds_den_pos (w h r : Q) :
    0 < (computeBounds w h r).minX.den ∧ 0 < (computeBounds w h r).maxX.den ∧
    0 < (computeBounds w h r).minY.den ∧ 0 < (computeBounds w h r).maxY.den := by
  unfold computeBounds
  exact ⟨Q.add_den_pos _ _, Q.sub_den_pos _ _, Q.add_den_pos _ _, Q.sub_den_pos _ _⟩

/-- Aggregate of the non-cache fields preserved by the smoothing update, and
its effect on `x`/`y`: one exponential-smoothing step toward the clamped
target with factor `0.4` when `touchActive` else `0.15`. -/
theorem updateVP_smooth (st : AppState) (tx ty : Q) (hF : cacheFresh st) :
    (updateViewportPosition st tx ty true).x =
      st.x + (clampX (boundsOf st) tx - st.x) * (if st.touchActive then 0.4 else 0.15) ∧
    (updateViewportPosition st tx ty true).y =
      st.y + (clampY (boundsOf st) ty - st.y) * (if st.touchActive then 0.4 else 0.15) ∧
    (updateViewportPosition st tx ty true).radius = st.radius ∧
    (updateViewportPosition st tx ty true).width = st.width ∧
    (updateViewportPosition st tx ty true).height = st.height ∧
    (updateViewportPosition st tx ty true).touchActive = st.touchActive ∧
    (updateViewportPosition st tx ty true).keyboardActive = st.keyboardActive ∧
    (updateViewportPosition st tx ty true).isMouseActive = st.isMouseActive ∧
    (updateViewportPosition st tx ty true).keysPressed = st.keysPressed ∧
    (updateViewportPosition st tx ty true).isMoving = st.isMoving ∧
    (updateViewportPosition st tx ty true).isLoaded = st.isLoaded := by
  obtain ⟨hx, hy, hr, hw, hh, hta, hka, hma, hkp, hmv, hld⟩ := applyBC_state st tx ty
  obtain ⟨hcx, hcy⟩ := applyBC_pos st tx ty hF
  unfold updateViewportPosition
  simp only [if_true]
  refine ⟨?_, ?_, hr, hw, hh, hta, hka, hma, hkp, hmv, hld⟩ <;>
    simp only [hx, hy, hta, hcx, hcy, clampX, clampY, boundsOf]

/-- The direct (`smooth = false`) update: position is set to the clamped
target, all other non-cache fields preserved. -/
theorem updateVP_direct (st : AppState) (tx ty : Q) (hF : cacheFresh st) :
    (updateViewportPosition st tx ty false).x = clampX (boundsOf st) tx ∧
    (updateViewportPosition st tx ty false).y = clampY (boundsOf st) ty ∧
    (updateViewportPosition st tx ty false).radius = st.radius ∧
    (updateViewportPosition st tx ty false).width = st.width ∧
    (updateViewportPosition st tx ty false).height = st.height ∧
    (updateViewportPosition st tx ty false).touchActive = st.touchActive ∧
    (updateViewportPosition st tx ty false).keyboardActive = st.keyboardActive ∧
    (updateViewportPosition st tx ty false).isMouseActive = st.isMouseActive ∧
    (updateViewportPosition st tx ty false).keysPressed = st.keysPressed ∧
    (updateViewportPosition st tx ty false).isMoving = st.isMoving ∧
    (updateViewportPosition st tx ty false).isLoaded = st.isLoaded := by
  obtain ⟨hx, hy, hr, hw, hh, hta, hka, hma, hkp, hmv, hld⟩ := applyBC_state st tx ty
  obtain ⟨hcx, hcy⟩ := applyBC_pos st tx ty hF
  unfold updateViewportPosition
  simp only [Bool.false_eq_true, if_false]
  refine ⟨?_, ?_, hr, hw, hh, hta, hka, hma, hkp, hmv, hld⟩ <;>
    simp only [hcx, hcy, clampX, clampY, boundsOf]

/-- Keyboard delta application: direct set to the clamp of the shifted
position. -/
theorem moveByDelta_spec (st : AppState) (dx dy : Q) (hF : cacheFresh st) :
    (moveViewportByDelta st dx dy).x = clampX (boundsOf st) (st.x + dx) ∧
    (moveViewportByDelta st dx dy).y = clampY (boundsOf st) (st.y + dy) ∧
    (moveViewportByDelta st dx dy).radius = st.radius ∧
    (moveViewportByDelta st dx dy).width = st.width ∧
    (moveViewportByDelta st dx dy).height = st.height ∧
    (moveViewportByDelta st dx dy).touchActive = st.touchActive ∧
    (moveViewportByDelta st dx dy).keyboardActive = st.keyboardActive ∧
    (moveViewportByDelta st dx dy).isMouseActive = st.isMouseActive ∧
    (moveViewportByDelta st dx dy).keysPressed = st.keysPressed ∧
    (moveViewportByDelta st dx dy).isMoving = st.isMoving ∧
    (moveViewportByDelta st dx dy).isLoaded = st.isLoaded := by
  obtain ⟨hx, hy, hr, hw, hh, hta, hka, hma, hkp, hmv, hld⟩ :=
    applyBC_state st (st.x + dx) (st.y + dy)
  obtain ⟨hcx, hcy⟩ := applyBC_pos st (st.x + dx) (st.y + dy) hF
  unfold moveViewportByDelta
  refine ⟨?_, ?_, hr, hw, hh, hta, hka, hma, hkp, hmv, hld⟩ <;>
    simp only [hcx, hcy, clampX, clampY, boundsOf]

theorem clampX_idem (b : Bounds) (v : Q) (h : Q.le b.minX b.maxX) :
    clampX b (clampX b v) = clampX b v := clamp_idem _ _ _ h

theorem clampY_idem (b : Bounds) (v : Q) (h : Q.le b.minY b.maxY) :
    clampY b (clampY b v) = clampY b v := clamp_idem _ _ _ h

theorem boundsOf_congr (st st' : AppState) (hw : st'.width = st.width)
    (hh : st'.height = st.height) (hr : st'.radius = st.radius) :
    boundsOf st' = boundsOf st := by
  unfold boundsOf
  rw [hw, hh, hr]

/-- Effect of one processed mouse sample: activity flags flip to mouse, the
position takes one smoothing step toward the clamped normalized target, and
the keyboard fields (`keysPressed`, `isMoving`) are untouched. -/
theorem handleMouseMove_spec (st : AppState) (cx cy : Q) (hL : st.isLoaded = true)
    (hF : cacheFresh st)
    (hndX : Q.le (boundsOf st).minX (boundsOf st).maxX)
    (hndY : Q.le (boundsOf st).minY (boundsOf st).maxY) :
    (handleMouseMove st cx cy).x =
      st.x + (clampX (boundsOf st) (cx / st.width) - st.x) *
        (if st.touchActive then 0.4 else 0.15) ∧
    (handleMouseMove st cx cy).y =
      st.y + (clampY (boundsOf st) (cy / st.height) - st.y) *
        (if st.touchActive then 0.4 else 0.15) ∧
    (handleMouseMove st cx cy).radius = st.radius ∧
    (handleMouseMove st cx cy).width = st.width ∧
    (handleMouseMove st cx cy).height = st.height ∧
    (handleMouseMove st cx cy).touchActive = st.touchActive ∧
    (handleMouseMove st cx cy).keyboardActive = false ∧
    (handleMouseMove st cx cy).isMouseActive = true ∧
    (handleMouseMove st cx cy).keysPressed = st.keysPressed ∧
    (handleMouseMove st cx cy).isMoving = st.isMoving := by
  have hF1 : cacheFresh { st with isMouseActive := true, keyboardActive := false } := hF
  set st1 : AppState := { st with isMouseActive := true, keyboardActive := false } with hst1
  set r := mouseToViewportPosition st1 cx cy with hrdef
  have hbc : r = applyBoundaryConstraints st1 (cx / st1.width) (cy / st1.height) := rfl
  obtain ⟨hx, hy, hr, hw, hh, hta, hka, hma, hkp, hmv, hld⟩ :=
    applyBC_state st1 (cx / st1.width) (cy / st1.height)
  obtain ⟨hcx, hcy⟩ := applyBC_pos st1 (cx / st1.width) (cy / st1.height) hF1
  obtain ⟨hcb, hFr⟩ := applyBC_cache st1 (cx / st1.width) (cy / st1.height) hF1
  rw [← hbc] at hx hy hr hw hh hta hka hma hkp hmv hld hcx hcy hcb hFr
  have hbr : boundsOf r.1 = boundsOf st1 := boundsOf_congr _ _ hw hh hr
  have hbst1 : boundsOf st1 = boundsOf st := rfl
  have hmm : handleMouseMove st cx cy = updateViewportPosition r.1 r.2.1 r.2.2 true := by
    unfold handleMouseMove
    rw [if_pos hL]
  obtain ⟨ux, uy, ur, uw, uh, uta, uka, uma, ukp, umv, uld⟩ :=
    updateVP_smooth r.1 r.2.1 r.2.2 hFr
  rw [hmm]
  have htx : r.2.1 = clampX (boundsOf st) (cx / st.width) := by
    rw [hcx]
    rfl
  have hty : r.2.2 = clampY (boundsOf st) (cy / st.height) := by
    rw [hcy]
    rfl
  refine ⟨?_, ?_, ?_, ?_, ?_, ?_, ?_, ?_, ?_, ?_⟩
  · rw [ux, hbr, hbst1, htx, clampX_idem _ _ hndX, hx, hta]
  · rw [uy, hbr, hbst1, hty, clampY_idem _ _ hndY, hy, hta]
  · rw [ur, hr]
  · rw [uw, hw]
  · rw [uh, hh]
  · rw [uta, hta]
  · rw [uka, hka]
  · rw [uma, hma]
  · rw [ukp, hkp]
  · rw [umv, hmv]

/-- Effect of one processed touch-start: flags flip to touch, and the
position is set directly (no smoothing) to the clamped normalized target. -/
theorem handleTouchStart_spec (st : AppState) (cx cy : Q) (hL : st.isLoaded = true)
    (hF : cacheFresh st)
    (hndX : Q.le (boundsOf st).minX (boundsOf st).maxX)
    (hndY : Q.le (boundsOf st).minY (boundsOf st).maxY) :
    (handleTouchStart st cx cy).x = clampX (boundsOf st) (cx / st.width) ∧
    (handleTouchStart st cx cy).y = clampY (boundsOf st) (cy / st.height) ∧
    (handleTouchStart st cx cy).radius = st.radius ∧
    (handleTouchStart st cx cy).width = st.width ∧
    (handleTouchStart st cx cy).height = st.height ∧
    (handleTouchStart st cx cy).touchActive = true ∧
    (handleTouchStart st cx cy).keyboardActive = false ∧
    (handleTouchStart st cx cy).isMouseActive = false ∧
    (handleTouchStart st cx cy).keysPressed = st.keysPressed ∧
    (handleTouchStart st cx cy).isMoving = st.isMoving := by
  have hF1 : cacheFresh { st with touchActive := true, isMouseActive := false,
                                  keyboardActive := false } := hF
  set st1 : AppState := { st with touchActive := true, isMouseActive := false,
                                  keyboardActive := false } with hst1
  set r := mouseToViewportPosition st1 cx cy with hrdef
  have hbc : r = applyBoundaryConstraints st1 (cx / st1.width) (cy / st1.height) := rfl
  obtain ⟨hx, hy, hr, hw, hh, hta, hka, hma, hkp, hmv, hld⟩ :=
    applyBC_state st1 (cx / st1.width) (cy / st1.height)
  obtain ⟨hcx, hcy⟩ := applyBC_pos st1 (cx / st1.width) (cy / st1.height) hF1
  obtain ⟨hcb, hFr⟩ := applyBC_cache st1 (cx / st1.width) (cy / st1.height) hF1
  rw [← hbc] at hx hy hr hw hh hta hka hma hkp hmv hld hcx hcy hcb hFr
  have hbr : boundsOf r.1 = boundsOf st1 := boundsOf_congr _ _ hw hh hr
  have hbst1 : boundsOf st1 = boundsOf st := rfl
  have hts : handleTouchStart st cx cy = updateViewportPosition r.1 r.2.1 r.2.2 false := by
    unfold handleTouchStart
    rw [if_pos hL]
  obtain ⟨ux, uy, ur, uw, uh, uta, uka, uma, ukp, umv, uld⟩ :=
    updateVP_direct r.1 r.2.1 r.2.2 hFr
  rw [hts]
  have htx : r.2.1 = clampX (boundsOf st) (cx / st.width) := by
    rw [hcx]
    rfl
  have hty : r.2.2 = clampY (boundsOf st) (cy / st.height) := by
    rw [hcy]
    rfl
  refine ⟨?_, ?_, ?_, ?_, ?_, ?_, ?_, ?_, ?_, ?_⟩
  · rw [ux, hbr, hbst1, htx, clampX_idem _ _ hndX]
  · rw [uy, hbr, hbst1, hty, clampY_idem _ _ hndY]
  · rw [ur, hr]
  · rw [uw, hw]
  · rw [uh, hh]
  · rw [uta, hta]
  · rw [uka, hka]
  · rw [uma, hma]
  · rw [ukp, hkp]
  · rw [umv, hmv]

/-- Effect of one processed touch-move while touch is active: one smoothing
step with the touch factor `0.4`; all flags preserved. -/
theorem handleTouchMove_spec (st : AppState) (cx cy : Q) (hL : st.isLoaded = true)
    (hT : st.touchActive = true) (hF : cacheFresh st)
    (hndX : Q.le (boundsOf st).minX (boundsOf st).maxX)
    (hndY : Q.le (boundsOf st).minY (boundsOf st).maxY) :
    (handleTouchMove st cx cy).x =
      st.x + (clampX (boundsOf st) (cx / st.width) - st.x) * 0.4 ∧
    (handleTouchMove st cx cy).y =
      st.y + (clampY (boundsOf st) (cy / st.height) - st.y) * 0.4 ∧
    (handleTouchMove st cx cy).radius = st.radius ∧
    (handleTouchMove st cx cy).width = st.width ∧
    (handleTouchMove st cx cy).height = st.height ∧
    (handleTouchMove st cx cy).touchActive = st.touchActive ∧
    (handleTouchMove st cx cy).keyboardActive = st.keyboardActive ∧
    (handleTouchMove st cx cy).isMouseActive = st.isMouseActive ∧
    (handleTouchMove st cx cy).keysPressed = st.keysPressed ∧
    (handleTouchMove st cx cy).isMoving = st.isMoving := by
  set r := mouseToViewportPosition st cx cy with hrdef
  have hbc : r = applyBoundaryConstraints st (cx / st.width) (cy / st.height) := rfl
  obtain ⟨hx, hy, hr, hw, hh, hta, hka, hma, hkp, hmv, hld⟩ :=
    applyBC_state st (cx / st.width) (cy / st.height)
  obtain ⟨hcx, hcy⟩ := applyBC_pos st (cx / st.width) (cy / st.height) hF
  obtain ⟨hcb, hFr⟩ := applyBC_cache st (cx / st.width) (cy / st.height) hF
  rw [← hbc] at hx hy hr hw hh hta hka hma hkp hmv hld hcx hcy hcb hFr
  have hbr : boundsOf r.1 = boundsOf st := boundsOf_congr _ _ hw hh hr
  have htm : handleTouchMove st cx cy = updateViewportPosition r.1 r.2.1 r.2.2 true := by
    unfold handleTouchMove
    rw [if_pos (by simp [hL, hT])]
  obtain ⟨ux, uy, ur, uw, uh, uta, uka, uma, ukp, umv, uld⟩ :=
    updateVP_smooth r.1 r.2.1 r.2.2 hFr
  rw [htm]
  have htx : r.2.1 = clampX (boundsOf st) (cx / st.width) := by
    rw [hcx]
    rfl
  have hty : r.2.2 = clampY (boundsOf st) (cy / st.height) := by
    rw [hcy]
    rfl
  refine ⟨?_, ?_, ?_, ?_, ?_, ?_, ?_, ?_, ?_, ?_⟩
  · rw [ux, hbr, htx, clampX_idem _ _ hndX, hx, hta, hT]
    rfl
  · rw [uy, hbr, hty, clampY_idem _ _ hndY, hy, hta, hT]
    rfl
  · rw [ur, hr]
  · rw [uw, hw]
  · rw [uh, hh]
  · rw [uta, hta]
  · rw [uka, hka]
  · rw [uma, hma]
  · rw [ukp, hkp]
  · rw [umv, hmv]

theorem toRat_04 : (0.4 : Q).toRat = 2/5 := by
  rw [show (0.4 : Q) = ⟨2, 5⟩ from by decide]
  unfold Q.toRat
  norm_num

theorem toRat_015 : (0.15 : Q).toRat = 3/20 := by
  rw [show (0.15 : Q) = ⟨3, 20⟩ from by decide]
  unfold Q.toRat
  norm_num

/-- One exponential smoothing step with a factor in `[0,1]` keeps the
position between the bounds when both the current position and the (clamped)
target are between them. -/
theorem smooth_inBounds (lo hi x c α : Q)
    (hlo : lo.den ≠ 0) (hhi : hi.den ≠ 0) (hx : x.den ≠ 0) (hc : c.den ≠ 0)
    (hα : α.den ≠ 0)
    (h1 : Q.le lo x) (h2 : Q.le x hi) (h3 : Q.le lo c) (h4 : Q.le c hi)
    (ha1 : (0 : ℚ) ≤ α.toRat) (ha2 : α.toRat ≤ 1) :
    Q.le lo (x + (c - x) * α) ∧ Q.le (x + (c - x) * α) hi := by
  have hd1 : ((c - x) * α).den ≠ 0 := ne_of_gt (Q.mul_den_pos _ _)
  have hd2 : (x + (c - x) * α).den ≠ 0 := ne_of_gt (Q.add_den_pos _ _)
  have hsub : (c - x).den ≠ 0 := ne_of_gt (Q.sub_den_pos _ _)
  have hv : (x + (c - x) * α).toRat = x.toRat + (c.toRat - x.toRat) * α.toRat := by
    rw [Q.toRat_add _ _ hx hd1, Q.toRat_mul _ _ hsub hα, Q.toRat_sub _ _ hc hx]
  have hv1 : lo.toRat ≤ x.toRat := (Q.le_iff _ _ hlo hx).mp h1
  have hv2 : x.toRat ≤ hi.toRat := (Q.le_iff _ _ hx hhi).mp h2
  have hv3 : lo.toRat ≤ c.toRat := (Q.le_iff _ _ hlo hc).mp h3
  have hv4 : c.toRat ≤ hi.toRat := (Q.le_iff _ _ hc hhi).mp h4
  constructor
  · have : lo.toRat ≤ (x + (c - x) * α).toRat := by
      rw [hv]
      nlinarith
    exact (Q.le_iff _ _ hlo hd2).mpr this
  · have : (x + (c - x) * α).toRat ≤ hi.toRat := by
      rw [hv]
      nlinarith
    exact (Q.le_iff _ _ hd2 hhi).mpr this

/-- Introduction/elimination for `inBounds` through `boundsOf`. -/
theorem inBounds_of (st : AppState)
    (h1 : Q.le (boundsOf st).minX st.x) (h2 : Q.le st.x (boundsOf st).maxX)
    (h3 : Q.le (boundsOf st).minY st.y) (h4 : Q.le st.y (boundsOf st).maxY) :
    inBounds st := ⟨h1, h2, h3, h4⟩

theorem inBounds_elim (st : AppState) (h : inBounds st) :
    Q.le (boundsOf st).minX st.x ∧ Q.le st.x (boundsOf st).maxX ∧
    Q.le (boundsOf st).minY st.y ∧ Q.le st.y (boundsOf st).maxY := h

/-- Each processed input event (pointer, touch, keyboard — not resize) keeps
the position inside the rectangle derived from the current configuration,
provided the pre-state is in bounds, the cache is fresh and the rectangle is
non-degenerate. -/
theorem step_inBounds (st : AppState) (ev : Ev) (hev : ev.isInput = true)
    (hx : st.x.den ≠ 0) (hy : st.y.den ≠ 0)
    (hF : cacheFresh st) (hnd : nondeg st) (hIB : inBounds st) :
    inBounds (step st ev) := by
  obtain ⟨hndX, hndY⟩ := hnd
  obtain ⟨i1, i2, i3, i4⟩ := inBounds_elim st hIB
  have hbden := computeBounds_den_pos st.width st.height st.radius
  have hd1 : (boundsOf st).minX.den ≠ 0 := ne_of_gt hbden.1
  have hd2 : (boundsOf st).maxX.den ≠ 0 := ne_of_gt hbden.2.1
  have hd3 : (boundsOf st).minY.den ≠ 0 := ne_of_gt hbden.2.2.1
  have hd4 : (boundsOf st).maxY.den ≠ 0 := ne_of_gt hbden.2.2.2
  cases ev with
  | mouseMove cx cy =>
      show inBounds (handleMouseMove st cx cy)
      by_cases hL : st.isLoaded = true
      · obtain ⟨ex, ey, er, ew, eh, _, _, _, _, _⟩ :=
          handleMouseMove_spec st cx cy hL hF hndX hndY
        have hb : boundsOf (handleMouseMove st cx cy) = boundsOf st :=
          boundsOf_congr _ _ ew eh er
        have hαden : (if st.touchActive then (0.4 : Q) else 0.15).den ≠ 0 := by
          split
          · rw [show (0.4 : Q) = ⟨2, 5⟩ from by decide]
            simp
          · rw [show (0.15 : Q) = ⟨3, 20⟩ from by decide]
            simp
        have hα1 : (0 : ℚ) ≤ (if st.touchActive then (0.4 : Q) else 0.15).toRat ∧
            (if st.touchActive then (0.4 : Q) else 0.15).toRat ≤ 1 := by
          split
          · rw [toRat_04]
            norm_num
          · rw [toRat_015]
            norm_num
        have hcdenx : (clampX (boundsOf st) (cx / st.width)).den ≠ 0 := by
          unfold clampX
          exact Q.max_den_ne_zero _ _ hd1
            (Q.min_den_ne_zero _ _ hd2 (ne_of_gt (Q.div_den_pos _ _)))
        have hcdeny : (clampY (boundsOf st) (cy / st.height)).den ≠ 0 := by
          unfold clampY
          exact Q.max_den_ne_zero _ _ hd3
            (Q.min_den_ne_zero _ _ hd4 (ne_of_gt (Q.div_den_pos _ _)))
        obtain ⟨s1, s2⟩ := smooth_inBounds (boundsOf st).minX (boundsOf st).maxX st.x
          (clampX (boundsOf st) (cx / st.width)) _ hd1 hd2 hx hcdenx hαden
          i1 i2 (clamp_ge _ _ _) (clamp_le _ _ _ hndX) hα1.1 hα1.2
        obtain ⟨s3, s4⟩ := smooth_inBounds (boundsOf st).minY (boundsOf st).maxY st.y
          (clampY (boundsOf st) (cy / st.height)) _ hd3 hd4 hy hcdeny hαden
          i3 i4 (clamp_ge _ _ _) (clamp_le _ _ _ hndY) hα1.1 hα1.2
        apply inBounds_of <;> rw [hb] <;> [rw [ex]; rw [ex]; rw [ey]; rw [ey]]
        · exact s1
        · exact s2
        · exact s3
        · exact s4
      · have : handleMouseMove st cx cy = st := by
          unfold handleMouseMove
          rw [if_neg hL]
        rw [this]
        exact hIB
  | touchStart cx cy =>
      show inBounds (handleTouchStart st cx cy)
      by_cases hL : st.isLoaded = true
      · obtain ⟨ex, ey, er, ew, eh, _, _, _, _, _⟩ :=
          handleTouchStart_spec st cx cy hL hF hndX hndY
        have hb : boundsOf (handleTouchStart st cx cy) = boundsOf st :=
          boundsOf_congr _ _ ew eh er
        apply inBounds_of <;> rw [hb] <;> [rw [ex]; rw [ex]; rw [ey]; rw [ey]]
        · exact clamp_ge _ _ _
        · exact clamp_le _ _ _ hndX
        · exact clamp_ge _ _ _
        · exact clamp_le _ _ _ hndY
      · have : handleTouchStart st cx cy = st := by
          unfold handleTouchStart
          rw [if_neg hL]
        rw [this]
        exact hIB
  | touchMove cx cy =>
      show inBounds (handleTouchMove st cx cy)
      by_cases hG : (st.isLoaded && st.touchActive) = true
      · have hL : st.isLoaded = true := (Bool.and_eq_true _ _ |>.mp hG).1
        have hT : st.touchActive = true := (Bool.and_eq_true _ _ |>.mp hG).2
        obtain ⟨ex, ey, er, ew, eh, _, _, _, _, _⟩ :=
          handleTouchMove_spec st cx cy hL hT hF hndX hndY
        have hb : boundsOf (handleTouchMove st cx cy) = boundsOf st :=
          boundsOf_congr _ _ ew eh er
        have hαden : (0.4 : Q).den ≠ 0 := by
          rw [show (0.4 : Q) = ⟨2, 5⟩ from by decide]
          simp
        have hα1 : (0 : ℚ) ≤ (0.4 : Q).toRat ∧ (0.4 : Q).toRat ≤ 1 := by
          rw [toRat_04]
          norm_num
        have hcdenx : (clampX (boundsOf st) (cx / st.width)).den ≠ 0 := by
          unfold clampX
          exact Q.max_den_ne_zero _ _ hd1
            (Q.min_den_ne_zero _ _ hd2 (ne_of_gt (Q.div_den_pos _ _)))
        have hcdeny : (clampY (boundsOf st) (cy / st.height)).den ≠ 0 := by
          unfold clampY
          exact Q.max_den_ne_zero _ _ hd3
            (Q.min_den_ne_zero _ _ hd4 (ne_of_gt (Q.div_den_pos _ _)))
        obtain ⟨s1, s2⟩ := smooth_inBounds (boundsOf st).minX (boundsOf st).maxX st.x
          (clampX (boundsOf st) (cx / st.width)) _ hd1 hd2 hx hcdenx hαden
          i1 i2 (clamp_ge _ _ _) (clamp_le _ _ _ hndX) hα1.1 hα1.2
        obtain ⟨s3, s4⟩ := smooth_inBounds (boundsOf st).minY (boundsOf st).maxY st.y
          (clampY (boundsOf st) (cy / st.height)) _ hd3 hd4 hy hcdeny hαden
          i3 i4 (clamp_ge _ _ _) (clamp_le _ _ _ hndY) hα1.1 hα1.2
        apply inBounds_of <;> rw [hb] <;> [rw [ex]; rw [ex]; rw [ey]; rw [ey]]
        · exact s1
        · exact s2
        · exact s3
        · exact s4
      · have : handleTouchMove st cx cy = st := by
          unfold handleTouchMove
          rw [if_neg hG]
        rw [this]
        exact hIB
  | touchEnd =>
      show inBounds (handleTouchEnd st)
      unfold handleTouchEnd
      split
      · exact hIB
      · exact hIB
  | keyDown k =>
      show inBounds (handleKeyDown st k)
      unfold handleKeyDown
      split
      · dsimp only
        split
        · exact hIB
        · exact hIB
      · exact hIB
  | keyUp k =>
      show inBounds (handleKeyUp st k)
      unfold handleKeyUp
      split
      · dsimp only
        split
        · exact hIB
        · exact hIB
      · exact hIB
  | keyTick dx dy =>
      show inBounds (moveLoop st dx dy)
      unfold moveLoop
      by_cases hstop : st.isMoving = false ∨ st.keysPressed = []
      · rw [if_pos hstop]
        exact hIB
      · rw [if_neg hstop]
        by_cases hnz : dx ≠ 0 ∨ dy ≠ 0
        · rw [if_pos hnz]
          obtain ⟨ex, ey, er, ew, eh, _, _, _, _, _⟩ := moveByDelta_spec st dx dy hF
          have hb : boundsOf (moveViewportByDelta st dx dy) = boundsOf st :=
            boundsOf_congr _ _ ew eh er
          apply inBounds_of <;> rw [hb] <;> [rw [ex]; rw [ex]; rw [ey]; rw [ey]]
          · exact clamp_ge _ _ _
          · exact clamp_le _ _ _ hndX
          · exact clamp_ge _ _ _
          · exact clamp_le _ _ _ hndY
        · rw [if_neg hnz]
          exact hIB
  | resize w h =>
      simp [Ev.isInput] at hev

/-- C1 counterexample: after a touch sample the position is in bounds, but a
subsequent resize (1000×800 → 200×200) recomputes the bounds without
re-clamping the position, leaving the viewport outside the new rectangle. -/
theorem resize_leaves_viewport_outside :
    inBounds (run 1000 800 [Ev.touchStart 830 400]) ∧
    ¬ inBounds (run 1000 800 [Ev.touchStart 830 400, Ev.resize 200 200]) ∧
    (run 1000 800 [Ev.touchStart 830 400, Ev.resize 200 200]).x =
      (run 1000 800 [Ev.touchStart 830 400]).x := by
  decide

/-- C1 (corrected): every processed pointer, touch or keyboard event keeps
`(x, y)` inside the rectangle derived from the current container size and
radius (given an in-bounds pre-state, fresh cache and non-degenerate
rectangle); but a resize leaves `x` and `y` completely unchanged — it
performs no re-clamp, so the state can sit outside the newly recomputed
rectangle until the next input event. -/
theorem boundary_containment :
    (∀ (st : AppState) (ev : Ev), ev.isInput = true →
        st.x.den ≠ 0 → st.y.den ≠ 0 → cacheFresh st → nondeg st → inBounds st →
        inBounds (step st ev)) ∧
    ∀ (st : AppState) (w h : Q),
        (handleResize st w h).x = st.x ∧ (handleResize st w h).y = st.y := by
  constructor
  · intro st ev hev hx hy hF hnd hIB
    exact step_inBounds st ev hev hx hy hF hnd hIB
  · intro st w h
    unfold handleResize
    constructor <;> dsimp only <;> split <;> rfl

/-- C1 witness: the containment step applied at a concrete state and event. -/
theorem boundary_containment_witness :
    inBounds (step (initialState 1000 800) (Ev.mouseMove 500 400)) ∧
    (handleResize (initialState 1000 800) 200 200).x = (initialState 1000 800).x :=
  ⟨boundary_containment.1 (initialState 1000 800) (Ev.mouseMove 500 400)
      (by decide) (by decide) (by decide) (by decide) (by decide) (by decide),
    (boundary_containment.2 (initialState 1000 800) 200 200).1⟩

/-- In a degenerate rectangle (`hi < lo`) the clamp returns the lower bound,
whatever the input. -/
theorem clamp_degenerate (lo hi x : Q) (hlo : lo.den ≠ 0) (hhi : hi.den ≠ 0)
    (h : Q.lt hi lo) : Q.max lo (Q.min hi x) = lo := by
  unfold Q.max Q.min
  by_cases h1 : Q.lt x hi
  · rw [if_pos h1]
    have hnlx : ¬ Q.lt lo x := by
      intro hlx
      rcases eq_or_ne x.den 0 with hxd | hxd
      · unfold Q.lt at h1
        rw [hxd] at h1
        simp at h1
      · have v1 := (Q.lt_iff lo x hlo hxd).mp hlx
        have v2 := (Q.lt_iff x hi hxd hhi).mp h1
        have v3 := (Q.lt_iff hi lo hhi hlo).mp h
        linarith
    rw [if_neg hnlx]
  · rw [if_neg h1]
    have hnlh : ¬ Q.lt lo hi := fun h' => absurd h (lt_asymm h')
    rw [if_neg hnlh]

/-- C2 counterexample: on a 100×100 container the initial radius is 60, so
`maxX < minX`; clamping the centre `0.5` yields `minX = 0.61`, not the
midpoint `0.5` the claim requires. -/
theorem degenerate_clamp_is_min_not_midpoint :
    Q.lt (boundsOf (initialState 100 100)).maxX (boundsOf (initialState 100 100)).minX ∧
    (applyBoundaryConstraints (initialState 100 100) 0.5 0.5).2.1 = 0.61 ∧
    (applyBoundaryConstraints (initialState 100 100) 0.5 0.5).2.1 ≠ 0.5 := by
  decide

/-- C2 (corrected): when the computed `maxX < minX` (radius plus padding
exceeding half the container on that axis), the clamp maps every input
position on that axis to the constant `minX = radiusX + padding` — which
exceeds `0.5`, so the viewport cannot move on that axis; this is total,
defined behavior (no exception), but the value is `minX`, not the midpoint
`0.5`. -/
theorem degenerate_clamp (st : AppState) (x y : Q) (hF : cacheFresh st)
    (hdeg : Q.lt (boundsOf st).maxX (boundsOf st).minX) :
    (applyBoundaryConstraints st x y).2.1 = (boundsOf st).minX := by
  obtain ⟨hcx, _⟩ := applyBC_pos st x y hF
  have hbden := computeBounds_den_pos st.width st.height st.radius
  rw [hcx]
  exact clamp_degenerate _ _ _ (ne_of_gt hbden.1) (ne_of_gt hbden.2.1) hdeg

/-- C2 witness: the degenerate clamp applied at the concrete 100×100
container, mapping the input `0.3` to `minX`. -/
theorem degenerate_clamp_witness :
    (applyBoundaryConstraints (initialState 100 100) 0.3 0.5).2.1 =
      (boundsOf (initialState 100 100)).minX :=
  degenerate_clamp (initialState 100 100) 0.3 0.5 (by decide) (by decide)

/-- C7 counterexample: the cache is keyed on container size only.  Computing
once at radius 140, then changing the radius to 100 with the container size
fixed, the memoized clamp returns the stale value (`0.84`) while the
from-first-principles clamp returns `0.88`. -/
theorem cache_ignores_radius_change :
    (applyBoundaryConstraints
        { (applyBoundaryConstraints (initialState 1000 800) 0.5 0.5).1 with
            radius := 100 } 0.9 0.5).2.1 ≠
      clampX (boundsOf
        { (applyBoundaryConstraints (initialState 1000 800) 0.5 0.5).1 with
            radius := 100 }) 0.9 := by
  decide

/-- C7 (corrected): clamping through the cache coincides with recomputing
the bounds from first principles as a pure function of
`(width, height, radius)` whenever the cached entry is absent, keyed to a
different container size, or was computed at the current radius — and this
freshness is preserved by the call itself.  It is not keyed on the radius:
a radius change at fixed container size (which the program itself never
performs, since the radius is recomputed exactly when the size changes) can
make the memoized and recomputed clamps differ. -/
theorem cache_equivalence (st : AppState) (x y : Q) (hF : cacheFresh st) :
    (applyBoundaryConstraints st x y).2.1 = clampX (boundsOf st) x ∧
    (applyBoundaryConstraints st x y).2.2 = clampY (boundsOf st) y ∧
    cacheFresh (applyBoundaryConstraints st x y).1 := by
  obtain ⟨hcx, hcy⟩ := applyBC_pos st x y hF
  obtain ⟨_, hfr⟩ := applyBC_cache st x y hF
  exact ⟨hcx, hcy, hfr⟩

/-- C7 witness: the memoized clamp equals the pure clamp at a concrete
state and input. -/
theorem cache_equivalence_witness :
    (applyBoundaryConstraints (initialState 1000 800) 0.9 0.5).2.1 =
      clampX (boundsOf (initialState 1000 800)) 0.9 :=
  (cache_equivalence (initialState 1000 800) 0.9 0.5 (by decide)).1

/-- The update leaves every flag and keyboard field unchanged, for either
value of `smooth` (no freshness hypothesis needed). -/
theorem updateVP_flags (st : AppState) (tx ty : Q) (sm : Bool) :
    (updateViewportPosition st tx ty sm).touchActive = st.touchActive ∧
    (updateViewportPosition st tx ty sm).keyboardActive = st.keyboardActive ∧
    (updateViewportPosition st tx ty sm).isMouseActive = st.isMouseActive ∧
    (updateViewportPosition st tx ty sm).keysPressed = st.keysPressed ∧
    (updateViewportPosition st tx ty sm).isMoving = st.isMoving := by
  obtain ⟨_, _, _, _, _, hta, hka, hma, hkp, hmv, _⟩ := applyBC_state st tx ty
  unfold updateViewportPosition
  cases sm <;> simp only [if_true, Bool.false_eq_true, if_false] <;>
    exact ⟨hta, hka, hma, hkp, hmv⟩

/-- A processed mouse sample flips the activity flags to mouse but leaves
the keyboard loop state (`keysPressed`, `isMoving`) untouched. -/
theorem handleMouseMove_flags (st : AppState) (cx cy : Q) (hL : st.isLoaded = true) :
    (handleMouseMove st cx cy).isMouseActive = true ∧
    (handleMouseMove st cx cy).keyboardActive = false ∧
    (handleMouseMove st cx cy).keysPressed = st.keysPressed ∧
    (handleMouseMove st cx cy).isMoving = st.isMoving ∧
    (handleMouseMove st cx cy).touchActive = st.touchActive := by
  have h : handleMouseMove st cx cy =
      updateViewportPosition (mouseToViewportPosition
        { st with isMouseActive := true, keyboardActive := false } cx cy).1
        (mouseToViewportPosition
          { st with isMouseActive := true, keyboardActive := false } cx cy).2.1
        (mouseToViewportPosition
          { st with isMouseActive := true, keyboardActive := false } cx cy).2.2 true := by
    unfold handleMouseMove
    rw [if_pos hL]
  set st1 : AppState := { st with isMouseActive := true, keyboardActive := false }
  set r := mouseToViewportPosition st1 cx cy with hrdef
  have hbc : r = applyBoundaryConstraints st1 (cx / st1.width) (cy / st1.height) := rfl
  obtain ⟨_, _, _, _, _, hta, hka, hma, hkp, hmv, _⟩ :=
    applyBC_state st1 (cx / st1.width) (cy / st1.height)
  rw [← hbc] at hta hka hma hkp hmv
  obtain ⟨uta, uka, uma, ukp, umv⟩ := updateVP_flags r.1 r.2.1 r.2.2 true
  rw [h]
  exact ⟨by rw [uma, hma], by rw [uka, hka], by rw [ukp, hkp], by rw [umv, hmv],
    by rw [uta, hta]⟩

/-- C6 counterexample: press arrow-left (keyboard loop becomes active), then
process a mouse sample; the loop's reschedule condition is still true, and a
subsequent keyboard tick still mutates the viewport position. -/
theorem pointer_sample_does_not_stop_keyboard_loop :
    loopActive (run 1000 800 [Ev.keyDown Key.arrowleft, Ev.mouseMove 500 400]) = true ∧
    (moveLoop (run 1000 800 [Ev.keyDown Key.arrowleft, Ev.mouseMove 500 400])
        (-0.002) 0).x ≠
      (run 1000 800 [Ev.keyDown Key.arrowleft, Ev.mouseMove 500 400]).x := by
  decide

/-- C6 (corrected): the activity flags are mutually exclusive — a pointer
sample sets mouse and clears keyboard, a key press sets keyboard and clears
mouse, a touch start clears both — but a pointer sample does not stop the
keyboard movement loop: it leaves `keysPressed` and `keyboard.isMoving`
untouched, so the loop keeps rescheduling and keyboard ticks keep mutating
the state while movement keys are held.  The loop stops only when the
held-key set empties (directly, or via keyup). -/
theorem source_arbitration :
    (∀ (st : AppState) (cx cy : Q), st.isLoaded = true →
      (handleMouseMove st cx cy).isMouseActive = true ∧
      (handleMouseMove st cx cy).keyboardActive = false ∧
      (handleMouseMove st cx cy).keysPressed = st.keysPressed ∧
      (handleMouseMove st cx cy).isMoving = st.isMoving) ∧
    (∀ (st : AppState) (k : Key), st.isLoaded = true →
      (handleKeyDown st k).keyboardActive = true ∧
      (handleKeyDown st k).isMouseActive = false) ∧
    (∀ (st : AppState) (cx cy : Q), st.isLoaded = true →
      (handleTouchStart st cx cy).touchActive = true ∧
      (handleTouchStart st cx cy).isMouseActive = false ∧
      (handleTouchStart st cx cy).keyboardActive = false) ∧
    (∀ (st : AppState) (dx dy : Q), st.keysPressed = [] →
      (moveLoop st dx dy).isMoving = false ∧
      (moveLoop st dx dy).x = st.x ∧ (moveLoop st dx dy).y = st.y) ∧
    (∀ (st : AppState) (k : Key), st.isLoaded = true →
      st.keysPressed.erase k = [] → (handleKeyUp st k).isMoving = false) := by
  refine ⟨?_, ?_, ?_, ?_, ?_⟩
  · intro st cx cy hL
    obtain ⟨h1, h2, h3, h4, _⟩ := handleMouseMove_flags st cx cy hL
    exact ⟨h1, h2, h3, h4⟩
  · intro st k hL
    unfold handleKeyDown
    rw [if_pos hL]
    dsimp only
    constructor <;> split <;> rfl
  · intro st cx cy hL
    have h : handleTouchStart st cx cy =
        updateViewportPosition (mouseToViewportPosition
          { st with touchActive := true, isMouseActive := false,
                    keyboardActive := false } cx cy).1
          (mouseToViewportPosition
            { st with touchActive := true, isMouseActive := false,
                      keyboardActive := false } cx cy).2.1
          (mouseToViewportPosition
            { st with touchActive := true, isMouseActive := false,
                      keyboardActive := false } cx cy).2.2 false := by
      unfold handleTouchStart
      rw [if_pos hL]
    set st1 : AppState := { st with touchActive := true, isMouseActive := false,
                                    keyboardActive := false }
    set r := mouseToViewportPosition st1 cx cy with hrdef
    have hbc : r = applyBoundaryConstraints st1 (cx / st1.width) (cy / st1.height) := rfl
    obtain ⟨_, _, _, _, _, hta, hka, hma, _, _, _⟩ :=
      applyBC_state st1 (cx / st1.width) (cy / st1.height)
    rw [← hbc] at hta hka hma
    obtain ⟨uta, uka, uma, _, _⟩ := updateVP_flags r.1 r.2.1 r.2.2 false
    rw [h]
    exact ⟨by rw [uta, hta], by rw [uma, hma], by rw [uka, hka]⟩
  · intro st dx dy hk
    unfold moveLoop
    rw [if_pos (Or.inr hk)]
    exact ⟨rfl, rfl, rfl⟩
  · intro st k hL hke
    unfold handleKeyUp
    rw [if_pos hL]
    dsimp only
    rw [if_pos hke]

/-- C6 witness: the arbitration facts applied at concrete states. -/
theorem source_arbitration_witness :
    (handleMouseMove (initialState 1000 800) 500 400).keyboardActive = false ∧
    (handleKeyDown (initialState 1000 800) Key.arrowleft).keyboardActive = true ∧
    (handleTouchStart (initialState 1000 800) 500 400).touchActive = true ∧
    (moveLoop (initialState 1000 800) 0.002 0).isMoving = false ∧
    (handleKeyUp (run 1000 800 [Ev.keyDown Key.a]) Key.a).isMoving = false :=
  ⟨(source_arbitration.1 (initialState 1000 800) 500 400 (by decide)).2.1,
   (source_arbitration.2.1 (initialState 1000 800) Key.arrowleft (by decide)).1,
   (source_arbitration.2.2.1 (initialState 1000 800) 500 400 (by decide)).1,
   (source_arbitration.2.2.2.1 (initialState 1000 800) 0.002 0 (by decide)).1,
   source_arbitration.2.2.2.2 (run 1000 800 [Ev.keyDown Key.a]) Key.a
     (by decide) (by decide)⟩

/-- C4 counterexample: on a touch-start sample with in-bounds target `0.8`
from centre `0.5`, the position is set directly to `0.8`; the claimed
one-step smoothing with `α = 0.4` would give `0.62`. -/
theorem touch_start_sets_directly :
    (handleTouchStart (initialState 1000 800) 800 400).x = 0.8 ∧
    (handleTouchStart (initialState 1000 800) 800 400).x ≠
      0.5 + (0.8 - 0.5) * 0.4 := by
  decide

/-- C4 (corrected): mouse-move and touch-move samples apply exactly one
smoothing step toward the target clamped into the current rectangle —
`x += (clampedTarget.x − x) · α` with `α = 0.4` when the `touchActive` flag
is set and `0.15` otherwise — but touch-start samples bypass smoothing and
set the position directly to the clamped target. -/
theorem absolute_intent_smoothing (st : AppState) (cx cy : Q)
    (hL : st.isLoaded = true) (hF : cacheFresh st)
    (hndX : Q.le (boundsOf st).minX (boundsOf st).maxX)
    (hndY : Q.le (boundsOf st).minY (boundsOf st).maxY) :
    ((handleMouseMove st cx cy).x =
        st.x + (clampX (boundsOf st) (cx / st.width) - st.x) *
          (if st.touchActive then 0.4 else 0.15) ∧
      (handleMouseMove st cx cy).y =
        st.y + (clampY (boundsOf st) (cy / st.height) - st.y) *
          (if st.touchActive then 0.4 else 0.15)) ∧
    (st.touchActive = true →
      (handleTouchMove st cx cy).x =
        st.x + (clampX (boundsOf st) (cx / st.width) - st.x) * 0.4 ∧
      (handleTouchMove st cx cy).y =
        st.y + (clampY (boundsOf st) (cy / st.height) - st.y) * 0.4) ∧
    ((handleTouchStart st cx cy).x = clampX (boundsOf st) (cx / st.width) ∧
      (handleTouchStart st cx cy).y = clampY (boundsOf st) (cy / st.height)) := by
  obtain ⟨mx, my, _⟩ := handleMouseMove_spec st cx cy hL hF hndX hndY
  obtain ⟨sx, sy, _⟩ := handleTouchStart_spec st cx cy hL hF hndX hndY
  refine ⟨⟨mx, my⟩, ?_, sx, sy⟩
  intro hT
  obtain ⟨tx, ty, _⟩ := handleTouchMove_spec st cx cy hL hT hF hndX hndY
  exact ⟨tx, ty⟩

/-- C4 witness: the smoothing equations applied at a concrete state. -/
theorem absolute_intent_smoothing_witness :
    (handleMouseMove (initialState 1000 800) 500 400).x =
      (initialState 1000 800).x +
        (clampX (boundsOf (initialState 1000 800)) (500 / (initialState 1000 800).width) -
          (initialState 1000 800).x) *
          (if (initialState 1000 800).touchActive then 0.4 else 0.15) :=
  ((absolute_intent_smoothing (initialState 1000 800) 500 400
      (by decide) (by decide) (by decide) (by decide)).1).1

/-- C10 (confirmed): `setViewportPosition` clamps each coordinate into the
unit interval only — `x := max(0, min(1, nx))`, likewise for `y` — and this
can place the viewport centre outside the allowed rectangle while inside
`[0,1]²`: on a 1000×800 container, `setViewportPosition(0.01, 0.5)` stores
`x = 0.01`, which is below `minX`. -/
theorem setViewportPosition_unit_clamp :
    (∀ (st : AppState) (nx ny : Q),
      (setViewportPosition st nx ny).x = Q.max 0 (Q.min 1 nx) ∧
      (setViewportPosition st nx ny).y = Q.max 0 (Q.min 1 ny)) ∧
    (Q.le 0 (setViewportPosition (initialState 1000 800) 0.01 0.5).x ∧
      Q.le (setViewportPosition (initialState 1000 800) 0.01 0.5).x 1 ∧
      Q.lt (setViewportPosition (initialState 1000 800) 0.01 0.5).x
        (boundsOf (setViewportPosition (initialState 1000 800) 0.01 0.5)).minX) := by
  constructor
  · intro st nx ny
    exact ⟨rfl, rfl⟩
  · decide

/-- C8 counterexample: the prescribed scenario — α = 0.15, start `(0.5,0.5)`,
in-bounds target `(0.8,0.2)` (container 2000×2000, so no clamping) — after
exactly 50 repeated pointer samples is still more than `1e-6` away from the
target on each axis (the exact distance is `0.3 · 0.85⁵⁰ ≈ 8.9e-5`). -/
theorem smoothing_50_iterations_miss_1e6 :
    Q.lt (1/1000000)
      (0.8 - (run 2000 2000 (List.replicate 50 (Ev.mouseMove 1600 400))).x) ∧
    Q.lt (1/1000000)
      ((run 2000 2000 (List.replicate 50 (Ev.mouseMove 1600 400))).y - 0.2) := by
  decide

/-- C8 (corrected): repeatedly feeding the same in-bounds pointer target
converges to it, but more slowly than claimed: after 50 iterations from
`(0.5,0.5)` toward `(0.8,0.2)` at `α = 0.15` the position is within `1e-4`
of the target on each axis (not `1e-6`), and within `1e-6` after 90
iterations. -/
theorem smoothing_convergence :
    (Q.le 0 (0.8 - (run 2000 2000 (List.replicate 50 (Ev.mouseMove 1600 400))).x) ∧
      Q.lt (0.8 - (run 2000 2000 (List.replicate 50 (Ev.mouseMove 1600 400))).x)
        (1/10000) ∧
      Q.le 0 ((run 2000 2000 (List.replicate 50 (Ev.mouseMove 1600 400))).y - 0.2) ∧
      Q.lt ((run 2000 2000 (List.replicate 50 (Ev.mouseMove 1600 400))).y - 0.2)
        (1/10000)) ∧
    (Q.lt (0.8 - (run 2000 2000 (List.replicate 90 (Ev.mouseMove 1600 400))).x)
        (1/1000000) ∧
      Q.lt ((run 2000 2000 (List.replicate 90 (Ev.mouseMove 1600 400))).y - 0.2)
        (1/1000000)) := by
  decide

theorem toReal_16p67 : (16.67 : Q).toReal = 1667 / 100 := by
  rw [show (16.67 : Q) = ⟨1667, 100⟩ from by decide]
  unfold Q.toReal
  norm_num

theorem Q.toReal_nonneg (a : Q) (h : Q.le 0 a) : 0 ≤ a.toReal := by
  rcases eq_or_ne a.den 0 with hd | hd
  · unfold Q.toReal
    rw [hd]
    simp
  · have h' : (0 : ℤ) ≤ a.num * a.den := by
      unfold Q.le at h
      simpa [show ((0 : Q)).num = 0 from rfl, show ((0 : Q)).den = 1 from rfl] using h
    have hdQ : (a.den : ℝ) ≠ 0 := Int.cast_ne_zero.mpr hd
    unfold Q.toReal
    rw [show (a.num : ℝ) / a.den = ((a.num : ℝ) * a.den) / ((a.den : ℝ) * a.den) from
      (mul_div_mul_right _ _ hdQ).symm]
    apply div_nonneg
    · exact_mod_cast h'
    · exact mul_self_nonneg _

theorem speed_toReal_pos (w : Q) : 0 < (getKeyboardMoveSpeed w).toReal := by
  unfold getKeyboardMoveSpeed
  split
  · rw [show (0.003 : Q) = ⟨3, 1000⟩ from by decide]
    unfold Q.toReal
    norm_num
  · split
    · rw [show (0.0025 : Q) = ⟨1, 400⟩ from by decide]
      unfold Q.toReal
      norm_num
    · rw [show (0.002 : Q) = ⟨1, 500⟩ from by decide]
      unfold Q.toReal
      norm_num

/-- C5 counterexample: at `dt = 16.67` ms on a 1000-px container with only
arrow-left held, the code's tick displacement is exactly `−0.002`, which is
not the value `−0.002 · (16.67 / (1000/60))` that the claimed
`dt / (1000/60)` frame scale prescribes (the code divides by `16.67`, not by
`1000/60 = 16.66…`). -/
theorem frame_scale_divisor_is_16p67 :
    (keyboardDelta [Key.arrowleft] 1000 16.67).1 = -0.002 ∧
    (keyboardDelta [Key.arrowleft] 1000 16.67).1 ≠
      -1 * 0.002 * ((16.67 : ℝ) / (1000 / 60)) := by
  have hs : getKeyboardMoveSpeed (1000 : Q) = (0.002 : Q) := by decide
  have h1 : (keyboardDelta [Key.arrowleft] 1000 16.67).1 = -0.002 := by
    have c1 : ([Key.arrowleft].contains Key.arrowleft || [Key.arrowleft].contains Key.a)
        = true := by decide
    have c2 : ([Key.arrowleft].contains Key.arrowright || [Key.arrowleft].contains Key.d)
        = false := by decide
    have c3 : ([Key.arrowleft].contains Key.arrowup || [Key.arrowleft].contains Key.w)
        = false := by decide
    have c4 : ([Key.arrowleft].contains Key.arrowdown || [Key.arrowleft].contains Key.s)
        = false := by decide
    unfold keyboardDelta
    rw [hs, toReal_16p67]
    rw [show (0.002 : Q) = ⟨1, 500⟩ from by decide]
    unfold Q.toReal
    simp only [c1, c2, c3, c4]
    norm_num
  refine ⟨h1, ?_⟩
  rw [h1]
  norm_num

/-- C5 (corrected): for every held-key set, container width and elapsed
time, a keyboard tick displaces each axis by
`direction · baseSpeed · (dt / 16.67)` — the frame scale divides by the
literal `16.67` ms, not by `1000/60` — with both axes additionally scaled
by `1/√2` when an X and a Y direction are active at once, and `baseSpeed`
of `0.003`/`0.0025`/`0.002` per width bucket via `getKeyboardMoveSpeed`;
one simulated 16.67 ms tick holding only arrow-left on a 1000-px container
gives exactly `−0.002`; and the loop applies the delta by direct set
through the boundary clamp (no smoothing). -/
theorem keyboard_tick_displacement (keys : List Key) (w dt : Q) :
    ((keyboardDelta keys w dt).1 =
        ((if (keys.contains Key.arrowleft || keys.contains Key.a) = true
            then (-1 : ℝ) else 0) +
          (if (keys.contains Key.arrowright || keys.contains Key.d) = true
            then (1 : ℝ) else 0)) *
          ((getKeyboardMoveSpeed w).toReal * (dt.toReal / 16.67)) *
          (if (((keys.contains Key.arrowleft || keys.contains Key.a) ||
                  (keys.contains Key.arrowright || keys.contains Key.d)) &&
                ((keys.contains Key.arrowup || keys.contains Key.w) ||
                  (keys.contains Key.arrowdown || keys.contains Key.s))) = true
            then 1 / Real.sqrt 2 else 1) ∧
      (keyboardDelta keys w dt).2 =
        ((if (keys.contains Key.arrowup || keys.contains Key.w) = true
            then (-1 : ℝ) else 0) +
          (if (keys.contains Key.arrowdown || keys.contains Key.s) = true
            then (1 : ℝ) else 0)) *
          ((getKeyboardMoveSpeed w).toReal * (dt.toReal / 16.67)) *
          (if (((keys.contains Key.arrowleft || keys.contains Key.a) ||
                  (keys.contains Key.arrowright || keys.contains Key.d)) &&
                ((keys.contains Key.arrowup || keys.contains Key.w) ||
                  (keys.contains Key.arrowdown || keys.contains Key.s))) = true
            then 1 / Real.sqrt 2 else 1)) ∧
    keyboardDelta [Key.arrowleft] 1000 16.67 = (-0.002, 0) ∧
    (∀ (st : AppState) (dx dy : Q), cacheFresh st → st.isMoving = true →
      st.keysPressed ≠ [] → (dx ≠ 0 ∨ dy ≠ 0) →
      (moveLoop st dx dy).x = clampX (boundsOf st) (st.x + dx) ∧
      (moveLoop st dx dy).y = clampY (boundsOf st) (st.y + dy)) := by
  refine ⟨?_, ?_, ?_⟩
  · unfold keyboardDelta
    cases hl : (keys.contains Key.arrowleft || keys.contains Key.a) <;>
      cases hr : (keys.contains Key.arrowright || keys.contains Key.d) <;>
      cases hu : (keys.contains Key.arrowup || keys.contains Key.w) <;>
      cases hd : (keys.contains Key.arrowdown || keys.contains Key.s) <;>
      simp only [hl, hr, hu, hd, Bool.true_or, Bool.or_true, Bool.false_or,
        Bool.or_false, Bool.true_and, Bool.and_true, Bool.false_and,
        Bool.and_false, Bool.or_self, Bool.false_eq_true, if_true, if_false] <;>
      exact ⟨by ring, by ring⟩
  · have hs : getKeyboardMoveSpeed (1000 : Q) = (0.002 : Q) := by decide
    have c1 : ([Key.arrowleft].contains Key.arrowleft || [Key.arrowleft].contains Key.a)
        = true := by decide
    have c2 : ([Key.arrowleft].contains Key.arrowright || [Key.arrowleft].contains Key.d)
        = false := by decide
    have c3 : ([Key.arrowleft].contains Key.arrowup || [Key.arrowleft].contains Key.w)
        = false := by decide
    have c4 : ([Key.arrowleft].contains Key.arrowdown || [Key.arrowleft].contains Key.s)
        = false := by decide
    unfold keyboardDelta
    rw [hs, toReal_16p67]
    rw [show (0.002 : Q) = ⟨1, 500⟩ from by decide]
    unfold Q.toReal
    simp only [c1, c2, c3, c4]
    norm_num
  · intro st dx dy hF hmv hkeys hnz
    unfold moveLoop
    have hcond : ¬ (st.isMoving = false ∨ st.keysPressed = []) := by
      rw [hmv]
      simp [hkeys]
    rw [if_neg hcond, if_pos hnz]
    obtain ⟨ex, ey, _⟩ := moveByDelta_spec st dx dy hF
    exact ⟨ex, ey⟩

/-- C5 witness: the scenario conjunct, and the direct-set clause applied at
the concrete state reached after pressing arrow-left, with every hypothesis
discharged there. -/
theorem keyboard_tick_displacement_witness :
    keyboardDelta [Key.arrowleft] 1000 16.67 = (-0.002, 0) ∧
    (moveLoop (run 1000 800 [Ev.keyDown Key.arrowleft]) (-0.002) 0).x =
      clampX (boundsOf (run 1000 800 [Ev.keyDown Key.arrowleft]))
        ((run 1000 800 [Ev.keyDown Key.arrowleft]).x + -0.002) :=
  ⟨(keyboard_tick_displacement [Key.arrowleft] 1000 16.67).2.1,
    ((keyboard_tick_displacement [Key.arrowleft] 1000 16.67).2.2
        (run 1000 800 [Ev.keyDown Key.arrowleft]) (-0.002) 0
        (by decide) (by decide) (by decide) (by decide)).1⟩

theorem sqrt_diag (s a b : ℝ) (hs : 0 ≤ s) (ha : a = s ∨ a = -s) (hb : b = s ∨ b = -s) :
    Real.sqrt ((a * (1 / Real.sqrt 2)) ^ 2 + (b * (1 / Real.sqrt 2)) ^ 2) = s := by
  have h2 : Real.sqrt 2 ^ 2 = 2 := Real.sq_sqrt (by norm_num)
  have ha2 : a ^ 2 = s ^ 2 := by rcases ha with h | h <;> rw [h] <;> try ring
  have hb2 : b ^ 2 = s ^ 2 := by rcases hb with h | h <;> rw [h] <;> try ring
  have hf : (1 / Real.sqrt 2) ^ 2 = 1 / 2 := by
    rw [div_pow, one_pow, h2]
  have key : (a * (1 / Real.sqrt 2)) ^ 2 + (b * (1 / Real.sqrt 2)) ^ 2 = s ^ 2 := by
    rw [show (a * (1 / Real.sqrt 2)) ^ 2 = a ^ 2 * (1 / Real.sqrt 2) ^ 2 from by ring,
        show (b * (1 / Real.sqrt 2)) ^ 2 = b ^ 2 * (1 / Real.sqrt 2) ^ 2 from by ring,
        hf, ha2, hb2]
    ring
  rw [key, Real.sqrt_sq hs]

theorem sqrt_axis (s a : ℝ) (hs : 0 ≤ s) (ha : a = s ∨ a = -s) :
    Real.sqrt (a ^ 2 + 0 ^ 2) = s := by
  have ha2 : a ^ 2 = s ^ 2 := by rcases ha with h | h <;> rw [h] <;> try ring
  rw [show a ^ 2 + 0 ^ 2 = s ^ 2 from by rw [ha2]; ring, Real.sqrt_sq hs]

/-- With exactly one X key and one Y key active, the tick displacement has
magnitude `baseSpeed · dt/16.67` — the `1/√2` normalization makes diagonal
speed equal axis speed. -/
theorem mag_diag (keys : List Key) (w dt : Q) (hdt : Q.le 0 dt)
    (hx : (keys.contains Key.arrowleft || keys.contains Key.a) = true ∧
            (keys.contains Key.arrowright || keys.contains Key.d) = false ∨
          (keys.contains Key.arrowleft || keys.contains Key.a) = false ∧
            (keys.contains Key.arrowright || keys.contains Key.d) = true)
    (hy : (keys.contains Key.arrowup || keys.contains Key.w) = true ∧
            (keys.contains Key.arrowdown || keys.contains Key.s) = false ∨
          (keys.contains Key.arrowup || keys.contains Key.w) = false ∧
            (keys.contains Key.arrowdown || keys.contains Key.s) = true) :
    deltaMagnitude (keyboardDelta keys w dt) =
      (getKeyboardMoveSpeed w).toReal * (dt.toReal / 16.67) := by
  have hms : 0 ≤ (getKeyboardMoveSpeed w).toReal * (dt.toReal / 16.67) :=
    mul_nonneg (le_of_lt (speed_toReal_pos w))
      (div_nonneg (Q.toReal_nonneg dt hdt) (by norm_num))
  unfold keyboardDelta deltaMagnitude
  rcases hx with ⟨hL, hR⟩ | ⟨hL, hR⟩ <;> rcases hy with ⟨hU, hD⟩ | ⟨hU, hD⟩ <;>
    simp only [hL, hR, hU, hD, Bool.true_or, Bool.or_true, Bool.false_or, Bool.or_false,
      Bool.or_self, Bool.true_and, Bool.and_true, Bool.and_false, Bool.false_and,
      Bool.false_eq_true, if_false, if_true, add_zero, zero_add] <;>
    exact sqrt_diag _ _ _ hms (by first | exact Or.inl rfl | exact Or.inr rfl)
      (by first | exact Or.inl rfl | exact Or.inr rfl)

/-- With exactly one X key and no Y key active, the tick displacement has
magnitude `baseSpeed · dt/16.67`. -/
theorem mag_axis (keys : List Key) (w dt : Q) (hdt : Q.le 0 dt)
    (hx : (keys.contains Key.arrowleft || keys.contains Key.a) = true ∧
            (keys.contains Key.arrowright || keys.contains Key.d) = false ∨
          (keys.contains Key.arrowleft || keys.contains Key.a) = false ∧
            (keys.contains Key.arrowright || keys.contains Key.d) = true)
    (hU : (keys.contains Key.arrowup || keys.contains Key.w) = false)
    (hD : (keys.contains Key.arrowdown || keys.contains Key.s) = false) :
    deltaMagnitude (keyboardDelta keys w dt) =
      (getKeyboardMoveSpeed w).toReal * (dt.toReal / 16.67) := by
  have hms : 0 ≤ (getKeyboardMoveSpeed w).toReal * (dt.toReal / 16.67) :=
    mul_nonneg (le_of_lt (speed_toReal_pos w))
      (div_nonneg (Q.toReal_nonneg dt hdt) (by norm_num))
  unfold keyboardDelta deltaMagnitude
  rcases hx with ⟨hL, hR⟩ | ⟨hL, hR⟩ <;>
    simp only [hL, hR, hU, hD, Bool.true_or, Bool.or_true, Bool.false_or, Bool.or_false,
      Bool.or_self, Bool.true_and, Bool.and_true, Bool.and_false, Bool.false_and,
      Bool.false_eq_true, if_false, if_true, add_zero, zero_add] <;>
    exact sqrt_axis _ _ hms (by first | exact Or.inl rfl | exact Or.inr rfl)

/-- C9 (confirmed): for every horizontal key `kx`, vertical key `ky`,
container width and non-negative tick duration, holding `kx` and `ky`
together produces a displacement whose Euclidean magnitude equals that of
holding `kx` alone for the same duration — the `1/√2` diagonal scaling is
exactly distance-preserving. -/
theorem diagonal_speed_invariance (kx ky : Key) (w dt : Q)
    (hkx : kx = Key.arrowleft ∨ kx = Key.arrowright ∨ kx = Key.a ∨ kx = Key.d)
    (hky : ky = Key.arrowup ∨ ky = Key.arrowdown ∨ ky = Key.w ∨ ky = Key.s)
    (hdt : Q.le 0 dt) :
    deltaMagnitude (keyboardDelta [kx, ky] w dt) =
      deltaMagnitude (keyboardDelta [kx] w dt) := by
  rcases hkx with h | h | h | h <;> rcases hky with h' | h' | h' | h' <;>
    subst h <;> subst h' <;>
    rw [mag_diag _ w dt hdt (by decide) (by decide),
      mag_axis _ w dt hdt (by decide) (by decide) (by decide)]

/-- C9 witness: diagonal invariance at arrow-left + arrow-up, width 1000,
`dt = 16.67`. -/
theorem diagonal_speed_invariance_witness :
    deltaMagnitude (keyboardDelta [Key.arrowleft, Key.arrowup] 1000 16.67) =
      deltaMagnitude (keyboardDelta [Key.arrowleft] 1000 16.67) :=
  diagonal_speed_invariance Key.arrowleft Key.arrowup 1000 16.67
    (Or.inl rfl) (Or.inl rfl) (by decide)

theorem computeBoundsJ_finite (wq hq rq : Q) (hw : ¬ Q.eqv wq 0) (hh : ¬ Q.eqv hq 0) :
    ∃ b1 b2 b3 b4 : Q, computeBoundsJ (.num wq) (.num hq) (.num rq) =
      ⟨.num b1, .num b2, .num b3, .num b4⟩ := by
  unfold computeBoundsJ
  simp only [jdiv]
  rw [if_neg hw, if_neg hh]
  split <;> exact ⟨_, _, _, _, rfl⟩

theorem clampJ_finite (l h x : JSNum) (hl : ∃ q, l = JSNum.num q)
    (hh : ∃ q, h = JSNum.num q) (hx : ∃ q, x = JSNum.num q) :
    ∃ q, jmax l (jmin h x) = JSNum.num q := by
  obtain ⟨a, rfl⟩ := hl
  obtain ⟨b, rfl⟩ := hh
  obtain ⟨c, rfl⟩ := hx
  exact ⟨_, rfl⟩

theorem applyBCJ_spec (st : JState) (x y : JSNum) (wq hq rq xq yq : Q)
    (hc : finiteCfg st wq hq rq xq yq) :
    ∃ b1 b2 b3 b4 : Q,
      (applyBoundaryConstraintsJ st x y).2.1 = jmax (.num b1) (jmin (.num b2) x) ∧
      (applyBoundaryConstraintsJ st x y).2.2 = jmax (.num b3) (jmin (.num b4) y) ∧
      finiteCfg (applyBoundaryConstraintsJ st x y).1 wq hq rq xq yq ∧
      (applyBoundaryConstraintsJ st x y).1.touchActive = st.touchActive := by
  obtain ⟨hw, hwnz, hh, hhnz, hr, hx, hy, hcb⟩ := hc
  unfold applyBoundaryConstraintsJ
  split
  · obtain ⟨b1, b2, b3, b4, hB⟩ := computeBoundsJ_finite wq hq rq hwnz hhnz
    rw [hw, hh, hr]
    rw [hB]
    exact ⟨b1, b2, b3, b4, rfl, rfl,
      ⟨rfl, hwnz, rfl, hhnz, rfl, hx, hy, Or.inr ⟨b1, b2, b3, b4, rfl⟩⟩, rfl⟩
  · rename_i hcond
    rcases hcb with hnone | ⟨b1, b2, b3, b4, hsome⟩
    · exact absurd (Or.inl hnone) hcond
    · dsimp only
      rw [hsome]
      exact ⟨b1, b2, b3, b4, rfl, rfl,
        ⟨hw, hwnz, hh, hhnz, hr, hx, hy, Or.inr ⟨b1, b2, b3, b4, hsome⟩⟩, rfl⟩

theorem updateVPJ_finite (st : JState) (tx ty : JSNum) (sm : Bool)
    (wq hq rq xq yq : Q) (hc : finiteCfg st wq hq rq xq yq)
    (htx : ∃ q, tx = JSNum.num q) (hty : ∃ q, ty = JSNum.num q) :
    (updateViewportPositionJ st tx ty sm).x.isFinite = true ∧
    (updateViewportPositionJ st tx ty sm).y.isFinite = true := by
  obtain ⟨b1, b2, b3, b4, hcx, hcy, hc', hta⟩ := applyBCJ_spec st tx ty wq hq rq xq yq hc
  obtain ⟨_, _, _, _, _, hx', hy', _⟩ := hc'
  obtain ⟨cxq, hcxq⟩ := clampJ_finite (.num b1) (.num b2) tx ⟨b1, rfl⟩ ⟨b2, rfl⟩ htx
  obtain ⟨cyq, hcyq⟩ := clampJ_finite (.num b3) (.num b4) ty ⟨b3, rfl⟩ ⟨b4, rfl⟩ hty
  rw [← hcx] at hcxq
  rw [← hcy] at hcyq
  unfold updateViewportPositionJ
  cases sm
  · simp only [Bool.false_eq_true, if_false]
    rw [hcxq, hcyq]
    exact ⟨rfl, rfl⟩
  · simp only [if_true]
    rw [hcxq, hcyq, hx', hy']
    split <;> exact ⟨rfl, rfl⟩

/-- C3 counterexample: with a zero-width container (height 400, radius 150),
processing one pointer sample stores `+Infinity` into `state.x`: the claimed
NaN/Infinity guard and midpoint degradation do not exist in the code. -/
theorem zero_width_stores_infinity :
    (handleMouseMoveJ jZeroWidthState 100 100).x = JSNum.posInf ∧
    (handleMouseMoveJ jZeroWidthState 100 100).x.isFinite = false := by
  decide

/-- C3 (corrected): for containers whose dimensions are finite and
numerically nonzero (negative dimensions included), pointer, touch and
keyboard-delta updates keep `state.x` and `state.y` finite; but for a
zero-width container a pointer update stores `Infinity` (see the
counterexample), so the claimed safety for zero/non-finite dimensions does
not hold and there is no midpoint degradation. -/
theorem nonfinite_safety (st : JState) (cx cy : Q) (dx dy : Q)
    (wq hq rq xq yq : Q) (hc : finiteCfg st wq hq rq xq yq) :
    (handleMouseMoveJ st cx cy).x.isFinite = true ∧
    (handleMouseMoveJ st cx cy).y.isFinite = true ∧
    (handleTouchStartJ st cx cy).x.isFinite = true ∧
    (handleTouchStartJ st cx cy).y.isFinite = true ∧
    (handleTouchMoveJ st cx cy).x.isFinite = true ∧
    (handleTouchMoveJ st cx cy).y.isFinite = true ∧
    (moveViewportByDeltaJ st (.num dx) (.num dy)).x.isFinite = true ∧
    (moveViewportByDeltaJ st (.num dy) (.num dy)).y.isFinite = true := by
  obtain ⟨hw, hwnz, hh, hhnz, hr, hx, hy, hcb⟩ := hc
  have hfin : ∀ st' : JState, finiteCfg st' wq hq rq xq yq →
      ∀ sm : Bool, ∀ cx' cy' : Q,
      (updateViewportPositionJ (mouseToViewportPositionJ st' cx' cy').1
          (mouseToViewportPositionJ st' cx' cy').2.1
          (mouseToViewportPositionJ st' cx' cy').2.2 sm).x.isFinite = true ∧
      (updateViewportPositionJ (mouseToViewportPositionJ st' cx' cy').1
          (mouseToViewportPositionJ st' cx' cy').2.1
          (mouseToViewportPositionJ st' cx' cy').2.2 sm).y.isFinite = true := by
    intro st' hc' sm cx' cy'
    obtain ⟨hw', hwnz', hh', hhnz', hr', hx', hy', hcb'⟩ := hc'
    have htx : ∃ q, (jdiv (.num cx') st'.width) = JSNum.num q := by
      rw [hw']
      refine ⟨cx' / wq, ?_⟩
      simp only [jdiv]
      rw [if_neg hwnz']
    have hty : ∃ q, (jdiv (.num cy') st'.height) = JSNum.num q := by
      rw [hh']
      refine ⟨cy' / hq, ?_⟩
      simp only [jdiv]
      rw [if_neg hhnz']
    have hbc : mouseToViewportPositionJ st' cx' cy' =
        applyBoundaryConstraintsJ st' (jdiv (.num cx') st'.width)
          (jdiv (.num cy') st'.height) := rfl
    obtain ⟨b1, b2, b3, b4, hcx', hcy', hc'', _⟩ :=
      applyBCJ_spec st' (jdiv (.num cx') st'.width) (jdiv (.num cy') st'.height)
        wq hq rq xq yq ⟨hw', hwnz', hh', hhnz', hr', hx', hy', hcb'⟩
    rw [← hbc] at hcx' hcy' hc''
    have htx2 : ∃ q, (mouseToViewportPositionJ st' cx' cy').2.1 = JSNum.num q := by
      rw [hcx']
      exact clampJ_finite _ _ _ ⟨b1, rfl⟩ ⟨b2, rfl⟩ htx
    have hty2 : ∃ q, (mouseToViewportPositionJ st' cx' cy').2.2 = JSNum.num q := by
      rw [hcy']
      exact clampJ_finite _ _ _ ⟨b3, rfl⟩ ⟨b4, rfl⟩ hty
    exact updateVPJ_finite _ _ _ sm wq hq rq xq yq hc'' htx2 hty2
  refine ⟨?_, ?_, ?_, ?_, ?_, ?_, ?_, ?_⟩
  · unfold handleMouseMoveJ
    split
    · dsimp only
      exact (hfin { st with isMouseActive := true, keyboardActive := false }
        ⟨hw, hwnz, hh, hhnz, hr, hx, hy, hcb⟩ true cx cy).1
    · rw [hx]
      rfl
  · unfold handleMouseMoveJ
    split
    · dsimp only
      exact (hfin { st with isMouseActive := true, keyboardActive := false }
        ⟨hw, hwnz, hh, hhnz, hr, hx, hy, hcb⟩ true cx cy).2
    · rw [hy]
      rfl
  · unfold handleTouchStartJ
    split
    · dsimp only
      exact (hfin { st with touchActive := true, isMouseActive := false, keyboardActive := false }
        ⟨hw, hwnz, hh, hhnz, hr, hx, hy, hcb⟩ false cx cy).1
    · rw [hx]
      rfl
  · unfold handleTouchStartJ
    split
    · dsimp only
      exact (hfin { st with touchActive := true, isMouseActive := false, keyboardActive := false }
        ⟨hw, hwnz, hh, hhnz, hr, hx, hy, hcb⟩ false cx cy).2
    · rw [hy]
      rfl
  · unfold handleTouchMoveJ
    split
    · dsimp only
      exact (hfin st ⟨hw, hwnz, hh, hhnz, hr, hx, hy, hcb⟩ true cx cy).1
    · rw [hx]
      rfl
  · unfold handleTouchMoveJ
    split
    · dsimp only
      exact (hfin st ⟨hw, hwnz, hh, hhnz, hr, hx, hy, hcb⟩ true cx cy).2
    · rw [hy]
      rfl
  · obtain ⟨b1, b2, b3, b4, hcx', hcy', _, _⟩ :=
      applyBCJ_spec st (jadd st.x (.num dx)) (jadd st.y (.num dy))
        wq hq rq xq yq ⟨hw, hwnz, hh, hhnz, hr, hx, hy, hcb⟩
    obtain ⟨q, hq'⟩ := clampJ_finite (.num b1) (.num b2) (jadd st.x (.num dx))
      ⟨b1, rfl⟩ ⟨b2, rfl⟩ ⟨xq + dx, by rw [hx]; rfl⟩
    unfold moveViewportByDeltaJ
    dsimp only
    rw [← hcx'] at hq'
    rw [hq']
    rfl
  · obtain ⟨b1, b2, b3, b4, hcx', hcy', _, _⟩ :=
      applyBCJ_spec st (jadd st.x (.num dy)) (jadd st.y (.num dy))
        wq hq rq xq yq ⟨hw, hwnz, hh, hhnz, hr, hx, hy, hcb⟩
    obtain ⟨q, hq'⟩ := clampJ_finite (.num b3) (.num b4) (jadd st.y (.num dy))
      ⟨b3, rfl⟩ ⟨b4, rfl⟩ ⟨yq + dy, by rw [hy]; rfl⟩
    unfold moveViewportByDeltaJ
    dsimp only
    rw [← hcy'] at hq'
    rw [hq']
    rfl

theorem nonfinite_safety_witness :
    (handleMouseMoveJ jNegWidthState 100 100).x.isFinite = true :=
  (nonfinite_safety jNegWidthState 100 100 0 0 (-100) 400 150 0.5 0.5
    ⟨rfl, by decide, rfl, by decide, rfl, rfl, rfl, Or.inl rfl⟩).1
